import Mathlib

/-!
Verification of the AutoRSS Lite one-shot static site generator (`main.py`)
against its natural-language specification.

The program is shallowly embedded: strings are `List Char`, the two
sanitizer regular expressions of `generate_body_html` are implemented as
explicit left-to-right scanners with Python `re.sub` semantics, and the
effectful pipeline of `main` is a pure function from an environment
describing the external world (filesystem, HTTP responses, clock) to a
record of its observable effects (exit code, HTTP calls, file writes).

Whitespace is modelled at ASCII level (the characters matched by Python's
`\s` on ASCII input); all inputs of interest in this development are ASCII.
-/

namespace AutoRSS

/-- ASCII whitespace, as matched by Python `str.strip` and `\s` on ASCII text. -/
def isSpaceChar (c : Char) : Bool :=
  c = ' ' || c = '\t' || c = '\n' || c = '\r' || c = '\x0b' || c = '\x0c'

/-- Characters matched by `[a-z0-9]` under `re.IGNORECASE`. -/
def isTagChar (c : Char) : Bool :=
  ('a' ≤ c && c ≤ 'z') || ('A' ≤ c && c ≤ 'Z') || ('0' ≤ c && c ≤ '9')

/-- ASCII lower-casing, as `str.lower` acts on ASCII characters. -/
def toLowerChar (c : Char) : Char :=
  if 'A' ≤ c && c ≤ 'Z' then Char.ofNat (c.toNat + 32) else c

/-- Python `str.strip()`: drop leading and trailing whitespace. -/
def pyStrip (s : List Char) : List Char :=
  ((s.dropWhile isSpaceChar).reverse.dropWhile isSpaceChar).reverse

/-- Python `str.rstrip("/")` on the character level. -/
def pyRstripSlash (s : List Char) : List Char :=
  (s.reverse.dropWhile (fun c => c = '/')).reverse

/-!
### The tag regex of `generate_body_html` (main.py line 427)

`re.sub(r"(?is)</?([a-z0-9]+)(\s+[^>]*)?>", _strip_disallowed, out)`.

A match at a position is: `<`, an optional `/`, a maximal nonempty run of
`[a-z0-9]` (case-insensitive) as group 1, then either an immediate `>`, or a
whitespace character followed by everything up to (and including) the next
`>`.  With Python's backtracking this is deterministic: `[a-z0-9]+` is
effectively maximal (a shorter run would be followed by another tag
character, which can match neither `\s` nor `>`), and `\s+[^>]*` combined
reach exactly to the first `>` at or after the first attribute character.
-/

/-- Match `([a-z0-9]+)(\s+[^>]*)?>` at the head of `r1`.  Returns
`(group1, consumed, rest)` on success. -/
def matchTagCore (r1 : List Char) : Option (List Char × List Char × List Char) :=
  let name := r1.takeWhile isTagChar
  let r2 := r1.dropWhile isTagChar
  if name = [] then none
  else
    match r2 with
    | [] => none
    | e :: r3 =>
      if e = '>' then some (name, name ++ ['>'], r3)
      else if isSpaceChar e then
        let attrs := r2.takeWhile (fun x => x != '>')
        match r2.dropWhile (fun x => x != '>') with
        | [] => none
        | _ :: r5 => some (name, name ++ attrs ++ ['>'], r5)
      else none

/-- Match the full tag pattern `</?([a-z0-9]+)(\s+[^>]*)?>` at the head of
`s`.  Returns `(group1, matchedText, rest)` on success. -/
def matchTagAt (s : List Char) : Option (List Char × List Char × List Char) :=
  match s with
  | [] => none
  | c :: r0 =>
    if c = '<' then
      match r0 with
      | [] => none
      | d :: r1 =>
        if d = '/' then
          (matchTagCore r1).map (fun x => (x.1, '<' :: '/' :: x.2.1, x.2.2))
        else
          (matchTagCore r0).map (fun x => (x.1, '<' :: x.2.1, x.2.2))
    else none

example : matchTagAt "<b>x".data = some ("b".data, "<b>".data, "x".data) := by decide
example : matchTagAt "</ul >y".data = some ("ul".data, "</ul >".data, "y".data) := by decide
example : matchTagAt "<a href=q>z".data =
    some ("a".data, "<a href=q>".data, "z".data) := by decide
example : matchTagAt "<di<b>v>".data = none := by decide
example : matchTagAt "<>x".data = none := by decide
example : matchTagAt "</>x".data = none := by decide
example : matchTagAt "<b/>x".data = none := by decide
example : matchTagAt "<B>x".data = some ("B".data, "<B>".data, "x".data) := by decide
example : matchTagAt "<p q".data = none := by decide

/-!
### The script/style regex of `generate_body_html` (main.py line 421)

`re.sub(r"(?is)<(script|style)[^>]*>.*?</\1\s*>", "", out)`.

The opening part reaches the first `>` after the keyword; the lazy `.*?`
extends to the earliest position where `</\1\s*>` matches (the
backreference is case-insensitive under `re.IGNORECASE`, and group 1 is
always a case variant of `script` or `style`, so it is equivalent to
matching the keyword case-insensitively).  If no closing tag follows, the
whole match fails at this position.
-/

/-- Case-insensitively match the literal `lit` (given in lowercase) at the
head of `s`; returns the rest on success. -/
def matchCI : List Char → List Char → Option (List Char)
  | [], s => some s
  | _ :: _, [] => none
  | l :: ls, c :: cs => if toLowerChar c = l then matchCI ls cs else none

/-- Match `<(script|style)[^>]*>` at the head of `s`.  Returns the
canonical keyword and the rest after the `>`. -/
def scriptOpenAt (s : List Char) : Option (List Char × List Char) :=
  match s with
  | [] => none
  | c :: r0 =>
    if c = '<' then
      match matchCI "script".data r0 with
      | some r1 =>
        match r1.dropWhile (fun x => x != '>') with
        | [] => none
        | _ :: r2 => some ("script".data, r2)
      | none =>
        match matchCI "style".data r0 with
        | some r1 =>
          match r1.dropWhile (fun x => x != '>') with
          | [] => none
          | _ :: r2 => some ("style".data, r2)
        | none => none
    else none

/-- Match `</kw\s*>` (keyword case-insensitive) at the head of `s`. -/
def closeAt (kw : List Char) (s : List Char) : Option (List Char) :=
  match s with
  | c :: d :: r0 =>
    if c = '<' && d = '/' then
      match matchCI kw r0 with
      | some r1 =>
        match r1.dropWhile isSpaceChar with
        | g :: r2 => if g = '>' then some r2 else none
        | [] => none
      | none => none
    else none
  | _ => none

/-- Find the earliest close tag `</kw\s*>` in `s` (the lazy `.*?`): returns
the rest after the first position where `closeAt` succeeds. -/
def findClose (kw : List Char) : List Char → Option (List Char)
  | [] => none
  | c :: cs =>
    match closeAt kw (c :: cs) with
    | some r => some r
    | none => findClose kw cs

/-- Match the whole element pattern `<(script|style)[^>]*>.*?</\1\s*>` at
the head of `s`; returns the rest after the match. -/
def matchScriptAt (s : List Char) : Option (List Char) :=
  match scriptOpenAt s with
  | some (kw, r1) => findClose kw r1
  | none => none

example : matchScriptAt "<script>alert(1)</script>x".data = some "x".data := by decide
example : matchScriptAt "<SCRIPT a=b>c</ScRiPt  >y".data = some "y".data := by decide
example : matchScriptAt "<style>p red</style>z".data = some "z".data := by decide
example : matchScriptAt "<script>no close".data = none := by decide
example : matchScriptAt "<scriptx>a</script>w".data = some "w".data := by decide
example : matchScriptAt "<script><script>a</script>w".data = some "w".data := by decide

/-!
### Shape characterization of the tag matcher

`matchTagCore`/`matchTagAt` succeed exactly on token texts of a fixed
shape, and the matched token is independent of what follows it.  This is
the key to reasoning about re-scanning sanitizer output.
-/

/-- The text consumed by `matchTagCore` after group 1: either `name>` or
`name` followed by whitespace-led attributes and `>`. -/
inductive CoreShape : List Char → List Char → Prop
  | simple (n : List Char) (hne : n ≠ []) (hall : ∀ c ∈ n, isTagChar c = true) :
      CoreShape n (n ++ ['>'])
  | withAttrs (n : List Char) (w : Char) (att : List Char) (hne : n ≠ [])
      (hall : ∀ c ∈ n, isTagChar c = true) (hw : isSpaceChar w = true)
      (hgt : '>' ∉ w :: att) :
      CoreShape n (n ++ (w :: att) ++ ['>'])

lemma dropWhile_head_false {p : Char → Bool} {l : List Char} {b : Char} {bs : List Char}
    (h : l.dropWhile p = b :: bs) : p b = false := by
  induction l with
  | nil => simp [List.dropWhile] at h
  | cons x xs ih =>
    rw [List.dropWhile_cons] at h
    by_cases hx : p x = true
    · rw [if_pos hx] at h; exact ih h
    · rw [if_neg hx] at h
      injection h with h1 h2
      subst h1
      exact Bool.eq_false_iff.mpr hx

lemma takeWhile_boundary {p : Char → Bool} {a : List Char}
    (ha : ∀ c ∈ a, p c = true) {e : Char} (he : p e = false) (z : List Char) :
    (a ++ e :: z).takeWhile p = a ∧ (a ++ e :: z).dropWhile p = e :: z := by
  induction a with
  | nil => simp [List.takeWhile_cons, List.dropWhile_cons, he]
  | cons x xs ih =>
    have hx : p x = true := ha x (by simp)
    have ih2 := ih (fun c hc => ha c (by simp [hc]))
    simp [List.takeWhile_cons, List.dropWhile_cons, hx, ih2.1, ih2.2]

lemma space_not_tagChar {c : Char} (h : isSpaceChar c = true) : isTagChar c = false := by
  simp only [isSpaceChar, Bool.or_eq_true, decide_eq_true_eq] at h
  rcases h with ((((h | h) | h) | h) | h) | h <;> subst h <;> decide

lemma space_ne_gt {c : Char} (h : isSpaceChar c = true) : c ≠ '>' := by
  intro hc; subst hc; simp [isSpaceChar] at h

lemma tagChar_ne_slash {c : Char} (h : isTagChar c = true) : c ≠ '/' := by
  intro hc; subst hc; simp [isTagChar] at h

lemma matchTagCore_sound {r1 n mc r : List Char}
    (h : matchTagCore r1 = some (n, mc, r)) : r1 = mc ++ r ∧ CoreShape n mc := by
  unfold matchTagCore at h
  by_cases hn : r1.takeWhile isTagChar = []
  · simp [hn] at h
  · simp only [if_neg hn] at h
    have hall : ∀ c ∈ r1.takeWhile isTagChar, isTagChar c = true :=
      fun c hc => List.mem_takeWhile_imp hc
    have hsplit : r1.takeWhile isTagChar ++ r1.dropWhile isTagChar = r1 :=
      List.takeWhile_append_dropWhile _ _
    cases hr2 : r1.dropWhile isTagChar with
    | nil => rw [hr2] at h; simp at h
    | cons e r3 =>
      rw [hr2] at h
      by_cases he : e = '>'
      · subst he
        simp only [if_pos rfl, Option.some.injEq, Prod.mk.injEq] at h
        obtain ⟨rfl, rfl, rfl⟩ := h
        constructor
        · conv_lhs => rw [← hsplit, hr2]
          simp
        · exact CoreShape.simple _ hn hall
      · simp only [if_neg he] at h
        by_cases hsp : isSpaceChar e = true
        · simp only [hsp, if_pos rfl] at h
          cases hdrop : (e :: r3).dropWhile (fun x => x != '>') with
          | nil => rw [hdrop] at h; simp at h
          | cons g r5 =>
            rw [hdrop] at h
            simp only [Option.some.injEq, Prod.mk.injEq] at h
            obtain ⟨rfl, rfl, rfl⟩ := h
            have hg : g = '>' := by
              have := dropWhile_head_false hdrop
              simpa using this
            have hpe : (e != '>') = true := by simpa using he
            have htk : (e :: r3).takeWhile (fun x => x != '>') =
                e :: r3.takeWhile (fun x => x != '>') := by
              simp [List.takeWhile_cons, hpe]
            have hatt : ∀ c ∈ (e :: r3).takeWhile (fun x => x != '>'), c ≠ '>' := by
              intro c hc
              have := List.mem_takeWhile_imp hc
              simpa using this
            have hjoin : (e :: r3).takeWhile (fun x => x != '>') ++
                (e :: r3).dropWhile (fun x => x != '>') = e :: r3 :=
              List.takeWhile_append_dropWhile _ _
            constructor
            · conv_lhs => rw [← hsplit, hr2, ← hjoin, hdrop]
              rw [hg]
              simp
            · rw [htk]
              have hgt : '>' ∉ e :: r3.takeWhile (fun x => x != '>') := by
                intro hmem
                rw [← htk] at hmem
                exact hatt '>' hmem rfl
              exact CoreShape.withAttrs _ e _ hn hall hsp hgt
        · simp [hsp] at h

lemma matchTagCore_complete {n mc : List Char} (h : CoreShape n mc) (l : List Char) :
    matchTagCore (mc ++ l) = some (n, mc, l) := by
  cases h with
  | simple hne hall =>
    have hb := takeWhile_boundary hall (p := isTagChar) (e := '>') (by decide) l
    unfold matchTagCore
    have he : n ++ ['>'] ++ l = n ++ '>' :: l := by simp
    rw [he, hb.1, hb.2]
    simp [hne]
  | withAttrs w att hne hall hw hgt =>
    have hwt : isTagChar w = false := space_not_tagChar hw
    have hb := takeWhile_boundary hall (p := isTagChar) hwt (att ++ '>' :: l)
    have hwg : w ≠ '>' := space_ne_gt hw
    have hattp : ∀ c ∈ w :: att, (fun x => x != '>') c = true := by
      intro c hc
      simp only [bne_iff_ne, ne_eq, decide_eq_true_eq]
      intro hcg
      subst hcg
      exact hgt hc
    have hb2 := takeWhile_boundary hattp (p := fun x => x != '>') (e := '>')
      (by simp) l
    have he2 : (w :: att) ++ '>' :: l = w :: (att ++ '>' :: l) := by simp
    rw [he2] at hb2
    unfold matchTagCore
    have he : n ++ (w :: att) ++ ['>'] ++ l = n ++ w :: (att ++ '>' :: l) := by
      simp
    rw [he, hb.1, hb.2]
    simp only [if_neg hne]
    rw [if_neg hwg, if_pos hw]
    rw [hb2.1, hb2.2]

/-- Token shape matched by `matchTagAt`: `<` or `</` followed by a core token. -/
def TagShape (n m : List Char) : Prop :=
  (∃ mc, CoreShape n mc ∧ m = '<' :: mc) ∨ (∃ mc, CoreShape n mc ∧ m = '<' :: '/' :: mc)

lemma CoreShape.head_tag {n mc : List Char} (h : CoreShape n mc) :
    ∃ c cs, mc = c :: cs ∧ isTagChar c = true := by
  cases h with
  | simple hne hall =>
    cases n with
    | nil => exact absurd rfl hne
    | cons x xs => exact ⟨x, xs ++ ['>'], by simp, hall x (by simp)⟩
  | withAttrs w att hne hall hw hgt =>
    cases n with
    | nil => exact absurd rfl hne
    | cons x xs => exact ⟨x, xs ++ (w :: att) ++ ['>'], by simp, hall x (by simp)⟩

lemma matchTagAt_cons (c : Char) (r0 : List Char) :
    matchTagAt (c :: r0) =
      if c = '<' then
        match r0 with
        | [] => none
        | d :: r1 =>
          if d = '/' then
            (matchTagCore r1).map (fun x => (x.1, '<' :: '/' :: x.2.1, x.2.2))
          else
            (matchTagCore r0).map (fun x => (x.1, '<' :: x.2.1, x.2.2))
      else none := rfl

lemma matchTagAt_sound {s n m r : List Char}
    (h : matchTagAt s = some (n, m, r)) : s = m ++ r ∧ TagShape n m := by
  cases s with
  | nil => simp [matchTagAt] at h
  | cons c r0 =>
    rw [matchTagAt_cons] at h
    by_cases hc : c = '<'
    · subst hc
      rw [if_pos rfl] at h
      cases r0 with
      | nil => simp at h
      | cons d r1 =>
        simp only [] at h
        by_cases hd : d = '/'
        · subst hd
          rw [if_pos rfl] at h
          cases hcore : matchTagCore r1 with
          | none => rw [hcore] at h; simp at h
          | some x =>
            rw [hcore] at h
            obtain ⟨n', mc, r'⟩ := x
            simp at h
            obtain ⟨rfl, rfl, rfl⟩ := h
            obtain ⟨hsp, hshape⟩ := matchTagCore_sound hcore
            exact ⟨by rw [hsp]; simp, Or.inr ⟨mc, hshape, rfl⟩⟩
        · rw [if_neg hd] at h
          cases hcore : matchTagCore (d :: r1) with
          | none => rw [hcore] at h; simp at h
          | some x =>
            rw [hcore] at h
            obtain ⟨n', mc, r'⟩ := x
            simp at h
            obtain ⟨rfl, rfl, rfl⟩ := h
            obtain ⟨hsp, hshape⟩ := matchTagCore_sound hcore
            exact ⟨by rw [hsp]; simp, Or.inl ⟨mc, hshape, rfl⟩⟩
    · rw [if_neg hc] at h; simp at h

lemma matchTagAt_complete {n m : List Char} (h : TagShape n m) (l : List Char) :
    matchTagAt (m ++ l) = some (n, m, l) := by
  cases h with
  | inl h =>
    obtain ⟨mc, hshape, rfl⟩ := h
    obtain ⟨hd, tl, hmc, htag⟩ := hshape.head_tag
    have hslash : hd ≠ '/' := tagChar_ne_slash htag
    rw [List.cons_append, matchTagAt_cons, if_pos rfl]
    conv_lhs => rw [hmc]
    simp only [List.cons_append]
    rw [if_neg hslash]
    rw [← List.cons_append, ← hmc, matchTagCore_complete hshape l]
    simp
  | inr h =>
    obtain ⟨mc, hshape, rfl⟩ := h
    rw [List.cons_append, matchTagAt_cons, if_pos rfl]
    simp only [List.cons_append]
    simp [matchTagCore_complete hshape l]

lemma matchTagAt_stable {s n m r l : List Char}
    (h : matchTagAt s = some (n, m, r)) : matchTagAt (m ++ l) = some (n, m, l) :=
  matchTagAt_complete (matchTagAt_sound h).2 l

lemma matchTagAt_none_not_lt {c : Char} (hc : c ≠ '<') (cs : List Char) :
    matchTagAt (c :: cs) = none := by
  rw [matchTagAt_cons, if_neg hc]

lemma TagShape.head_lt {n m : List Char} (h : TagShape n m) :
    ∃ t, m = '<' :: t := by
  rcases h with ⟨mc, _, rfl⟩ | ⟨mc, _, rfl⟩
  · exact ⟨mc, rfl⟩
  · exact ⟨'/' :: mc, rfl⟩

lemma matchTagAt_length {s n m r : List Char}
    (h : matchTagAt s = some (n, m, r)) : r.length < s.length := by
  obtain ⟨hsp, hshape⟩ := matchTagAt_sound h
  obtain ⟨t, rfl⟩ := hshape.head_lt
  rw [hsp]
  simp only [List.cons_append, List.length_cons, List.length_append]
  omega

/-!
### The two `re.sub` passes of the sanitizer

`re.sub` scans left to right: at each position it tries the pattern; on a
match it emits the replacement and resumes after the match, otherwise it
keeps the character and advances by one.  Both scanners are written with a
step-count fuel (every step consumes at least one character, so a fuel of
`s.length` always suffices); the wrappers fix that fuel.
-/

lemma matchCI_length {lit s r : List Char} (h : matchCI lit s = some r) :
    r.length ≤ s.length := by
  induction lit generalizing s with
  | nil => simp [matchCI] at h; subst h; exact le_refl _
  | cons l ls ih =>
    cases s with
    | nil => simp [matchCI] at h
    | cons c cs =>
      unfold matchCI at h
      by_cases hc : toLowerChar c = l
      · rw [if_pos hc] at h
        exact le_trans (ih h) (by simp)
      · rw [if_neg hc] at h; simp at h

lemma scriptOpenAt_cons (c : Char) (r0 : List Char) :
    scriptOpenAt (c :: r0) =
      (if c = '<' then
        match matchCI "script".data r0 with
        | some r1 =>
          match r1.dropWhile (fun x => x != '>') with
          | [] => none
          | _ :: r2 => some ("script".data, r2)
        | none =>
          match matchCI "style".data r0 with
          | some r1 =>
            match r1.dropWhile (fun x => x != '>') with
            | [] => none
            | _ :: r2 => some ("style".data, r2)
          | none => none
      else none) := rfl

lemma closeAt_cons (kw : List Char) (c d : Char) (r0 : List Char) :
    closeAt kw (c :: d :: r0) =
      (if c = '<' && d = '/' then
        match matchCI kw r0 with
        | some r1 =>
          match r1.dropWhile isSpaceChar with
          | g :: r2 => if g = '>' then some r2 else none
          | [] => none
        | none => none
      else none) := rfl

lemma findClose_cons (kw : List Char) (c : Char) (cs : List Char) :
    findClose kw (c :: cs) =
      (match closeAt kw (c :: cs) with
      | some r => some r
      | none => findClose kw cs) := rfl

lemma scriptOpenAt_length {s : List Char} {kw r1 : List Char}
    (h : scriptOpenAt s = some (kw, r1)) : r1.length < s.length := by
  cases s with
  | nil => simp [scriptOpenAt] at h
  | cons c r0 =>
    rw [scriptOpenAt_cons] at h
    by_cases hc : c = '<'
    · rw [if_pos hc] at h
      cases hci : matchCI "script".data r0 with
      | some ra =>
        rw [hci] at h
        simp only [] at h
        cases hdw : ra.dropWhile (fun x => x != '>') with
        | nil => rw [hdw] at h; simp at h
        | cons g r2 =>
          rw [hdw] at h
          simp only [Option.some.injEq, Prod.mk.injEq] at h
          obtain ⟨_, rfl⟩ := h
          have h1 : (g :: r2).length ≤ ra.length := hdw ▸ (List.dropWhile_suffix _).sublist.length_le
          have h2 : ra.length ≤ r0.length := matchCI_length hci
          simp only [List.length_cons] at h1 ⊢
          omega
      | none =>
        rw [hci] at h
        simp only [] at h
        cases hci2 : matchCI "style".data r0 with
        | some ra =>
          rw [hci2] at h
          simp only [] at h
          cases hdw : ra.dropWhile (fun x => x != '>') with
          | nil => rw [hdw] at h; simp at h
          | cons g r2 =>
            rw [hdw] at h
            simp only [Option.some.injEq, Prod.mk.injEq] at h
            obtain ⟨_, rfl⟩ := h
            have h1 : (g :: r2).length ≤ ra.length := hdw ▸ (List.dropWhile_suffix _).sublist.length_le
            have h2 : ra.length ≤ r0.length := matchCI_length hci2
            simp only [List.length_cons] at h1 ⊢
            omega
        | none => rw [hci2] at h; simp at h
    · rw [if_neg hc] at h; simp at h

lemma closeAt_length {kw s r : List Char} (h : closeAt kw s = some r) :
    r.length < s.length := by
  cases s with
  | nil => simp [closeAt] at h
  | cons c s1 =>
    cases s1 with
    | nil => simp [closeAt] at h
    | cons d r0 =>
      rw [closeAt_cons] at h
      by_cases hcd : (c = '<' && d = '/') = true
      · rw [if_pos hcd] at h
        cases hci : matchCI kw r0 with
        | some ra =>
          rw [hci] at h
          simp only [] at h
          cases hdw : ra.dropWhile isSpaceChar with
          | nil => rw [hdw] at h; simp at h
          | cons g r2 =>
            rw [hdw] at h
            simp only [] at h
            by_cases hg : g = '>'
            · rw [if_pos hg] at h
              simp only [Option.some.injEq] at h
              subst h
              have h1 : (g :: r2).length ≤ ra.length := hdw ▸ (List.dropWhile_suffix _).sublist.length_le
              have h2 : ra.length ≤ r0.length := matchCI_length hci
              simp only [List.length_cons] at h1 ⊢
              omega
            · rw [if_neg hg] at h; simp at h
        | none => rw [hci] at h; simp at h
      · rw [if_neg hcd] at h; simp at h

lemma findClose_length {kw l r : List Char} (h : findClose kw l = some r) :
    r.length ≤ l.length := by
  induction l with
  | nil => simp [findClose] at h
  | cons c cs ih =>
    rw [findClose_cons] at h
    cases hcl : closeAt kw (c :: cs) with
    | some ra =>
      rw [hcl] at h
      simp only [Option.some.injEq] at h
      subst h
      exact le_of_lt (closeAt_length hcl)
    | none =>
      rw [hcl] at h
      exact le_trans (ih h) (by simp)

lemma matchScriptAt_length {s r : List Char} (h : matchScriptAt s = some r) :
    r.length < s.length := by
  unfold matchScriptAt at h
  cases hop : scriptOpenAt s with
  | some x =>
    obtain ⟨kw, r1⟩ := x
    rw [hop] at h
    exact lt_of_le_of_lt (findClose_length h) (scriptOpenAt_length hop)
  | none => rw [hop] at h; simp at h

/-- The allow-set of `generate_body_html` (main.py line 419). -/
def allowed : List (List Char) :=
  ["p", "h2", "ul", "li", "strong", "code", "a"].map String.data

/-- One `re.sub` scan for the script/style pass (main.py line 421),
replacement is the empty string. -/
def remove_script_style_fuel : Nat → List Char → List Char
  | 0, s => s
  | _ + 1, [] => []
  | fuel + 1, c :: cs =>
    match matchScriptAt (c :: cs) with
    | some r => remove_script_style_fuel fuel r
    | none => c :: remove_script_style_fuel fuel cs

/-- `re.sub(r"(?is)<(script|style)[^>]*>.*?</\1\s*>", "", s)`. -/
def remove_script_style (s : List Char) : List Char :=
  remove_script_style_fuel s.length s

/-- One `re.sub` scan for the allow-list pass (main.py lines 423-427):
a matched tag is kept exactly when its lower-cased group 1 is allowed. -/
def strip_disallowed_fuel : Nat → List Char → List Char
  | 0, s => s
  | _ + 1, [] => []
  | fuel + 1, c :: cs =>
    match matchTagAt (c :: cs) with
    | some (n, m, r) =>
      (if allowed.contains (n.map toLowerChar) then m else []) ++
        strip_disallowed_fuel fuel r
    | none => c :: strip_disallowed_fuel fuel cs

/-- `re.sub(r"(?is)</?([a-z0-9]+)(\s+[^>]*)?>", _strip_disallowed, s)`. -/
def strip_disallowed (s : List Char) : List Char :=
  strip_disallowed_fuel s.length s

/-- The full sanitizer of `generate_body_html` (main.py lines 419-427):
script/style removal, then `strip()`, then the allow-list pass. -/
def sanitize (s : List Char) : List Char :=
  strip_disallowed (pyStrip (remove_script_style s))

lemma remove_script_style_fuel_eq :
    ∀ f1 f2 s, s.length ≤ f1 → s.length ≤ f2 →
      remove_script_style_fuel f1 s = remove_script_style_fuel f2 s := by
  intro f1
  induction f1 with
  | zero =>
    intro f2 s h1 _
    have hs : s = [] := List.length_eq_zero.mp (Nat.le_zero.mp h1)
    subst hs
    cases f2 <;> rfl
  | succ f ih =>
    intro f2 s h1 h2
    cases s with
    | nil => cases f2 <;> rfl
    | cons c cs =>
      cases f2 with
      | zero => simp at h2
      | succ g =>
        show (match matchScriptAt (c :: cs) with
          | some r => remove_script_style_fuel f r
          | none => c :: remove_script_style_fuel f cs) =
          (match matchScriptAt (c :: cs) with
          | some r => remove_script_style_fuel g r
          | none => c :: remove_script_style_fuel g cs)
        cases hm : matchScriptAt (c :: cs) with
        | some r =>
          have hr := matchScriptAt_length hm
          simp only [List.length_cons] at hr h1 h2
          exact ih g r (by omega) (by omega)
        | none =>
          simp only [List.length_cons] at h1 h2
          rw [ih g cs (by omega) (by omega)]

lemma remove_script_style_match {c : Char} {cs r : List Char}
    (hm : matchScriptAt (c :: cs) = some r) :
    remove_script_style (c :: cs) = remove_script_style r := by
  have hr := matchScriptAt_length hm
  simp only [List.length_cons] at hr
  show remove_script_style_fuel (cs.length + 1) (c :: cs) = _
  show _ = remove_script_style_fuel r.length r
  rw [show remove_script_style_fuel (cs.length + 1) (c :: cs) =
    (match matchScriptAt (c :: cs) with
      | some r => remove_script_style_fuel cs.length r
      | none => c :: remove_script_style_fuel cs.length cs) from rfl, hm]
  exact remove_script_style_fuel_eq cs.length r.length r (by omega) le_rfl

lemma remove_script_style_nomatch {c : Char} {cs : List Char}
    (hm : matchScriptAt (c :: cs) = none) :
    remove_script_style (c :: cs) = c :: remove_script_style cs := by
  show remove_script_style_fuel (cs.length + 1) (c :: cs) = _
  rw [show remove_script_style_fuel (cs.length + 1) (c :: cs) =
    (match matchScriptAt (c :: cs) with
      | some r => remove_script_style_fuel cs.length r
      | none => c :: remove_script_style_fuel cs.length cs) from rfl, hm]
  rfl

lemma strip_disallowed_fuel_eq :
    ∀ f1 f2 s, s.length ≤ f1 → s.length ≤ f2 →
      strip_disallowed_fuel f1 s = strip_disallowed_fuel f2 s := by
  intro f1
  induction f1 with
  | zero =>
    intro f2 s h1 _
    have hs : s = [] := List.length_eq_zero.mp (Nat.le_zero.mp h1)
    subst hs
    cases f2 <;> rfl
  | succ f ih =>
    intro f2 s h1 h2
    cases s with
    | nil => cases f2 <;> rfl
    | cons c cs =>
      cases f2 with
      | zero => simp at h2
      | succ g =>
        show (match matchTagAt (c :: cs) with
          | some (n, m, r) =>
            (if allowed.contains (n.map toLowerChar) then m else []) ++
              strip_disallowed_fuel f r
          | none => c :: strip_disallowed_fuel f cs) =
          (match matchTagAt (c :: cs) with
          | some (n, m, r) =>
            (if allowed.contains (n.map toLowerChar) then m else []) ++
              strip_disallowed_fuel g r
          | none => c :: strip_disallowed_fuel g cs)
        cases hm : matchTagAt (c :: cs) with
        | some x =>
          obtain ⟨n, m, r⟩ := x
          have hr := matchTagAt_length hm
          simp only [List.length_cons] at hr h1 h2
          simp only []
          rw [ih g r (by omega) (by omega)]
        | none =>
          simp only [List.length_cons] at h1 h2
          simp only []
          rw [ih g cs (by omega) (by omega)]

lemma strip_disallowed_match {c : Char} {cs n m r : List Char}
    (hm : matchTagAt (c :: cs) = some (n, m, r)) :
    strip_disallowed (c :: cs) =
      (if allowed.contains (n.map toLowerChar) then m else []) ++
        strip_disallowed r := by
  have hr := matchTagAt_length hm
  simp only [List.length_cons] at hr
  show strip_disallowed_fuel (cs.length + 1) (c :: cs) = _
  rw [show strip_disallowed_fuel (cs.length + 1) (c :: cs) =
    (match matchTagAt (c :: cs) with
      | some (n, m, r) =>
        (if allowed.contains (n.map toLowerChar) then m else []) ++
          strip_disallowed_fuel cs.length r
      | none => c :: strip_disallowed_fuel cs.length cs) from rfl, hm]
  simp only []
  rw [strip_disallowed_fuel_eq cs.length r.length r (by omega) le_rfl]
  rfl

lemma strip_disallowed_nomatch {c : Char} {cs : List Char}
    (hm : matchTagAt (c :: cs) = none) :
    strip_disallowed (c :: cs) = c :: strip_disallowed cs := by
  show strip_disallowed_fuel (cs.length + 1) (c :: cs) = _
  rw [show strip_disallowed_fuel (cs.length + 1) (c :: cs) =
    (match matchTagAt (c :: cs) with
      | some (n, m, r) =>
        (if allowed.contains (n.map toLowerChar) then m else []) ++
          strip_disallowed_fuel cs.length r
      | none => c :: strip_disallowed_fuel cs.length cs) from rfl, hm]
  rfl

example : sanitize "<di<b>v>".data = "<div>".data := by decide
example : sanitize "<b> x".data = " x".data := by decide
example : sanitize (sanitize "<b> x".data) = "x".data := by decide
example : sanitize "<p>hi</p><div>x</div>".data = "<p>hi</p>x".data := by decide
example :
    sanitize "<p><strong>Summary</strong>: t</p><script>bad()</script>".data =
      "<p><strong>Summary</strong>: t</p>".data := by decide

/-!
### Output predicates and the chunk well-formedness hypothesis

`hasDisallowedTag u` holds when some suffix of `u` matches the tag pattern
with a group-1 name outside the allow-set; `hasScriptOpen`/`hasScriptElem`
when some suffix matches the script/style open-tag or element pattern.
`chunksOk t` says every `<` in `t` starts a complete tag-pattern match that
contains no further `<`; it is the well-formedness condition under which
the allow-list pass is splice-free.
-/

def disallowedAt (s : List Char) : Bool :=
  match matchTagAt s with
  | some (n, _, _) => !(allowed.contains (n.map toLowerChar))
  | none => false

def hasDisallowedTag : List Char → Bool
  | [] => false
  | c :: cs => disallowedAt (c :: cs) || hasDisallowedTag cs

def hasScriptOpen : List Char → Bool
  | [] => false
  | c :: cs => (scriptOpenAt (c :: cs)).isSome || hasScriptOpen cs

def hasScriptElem : List Char → Bool
  | [] => false
  | c :: cs => (matchScriptAt (c :: cs)).isSome || hasScriptElem cs

def badAt (s : List Char) : Bool :=
  disallowedAt s || (scriptOpenAt s).isSome

def hasBad : List Char → Bool
  | [] => false
  | c :: cs => badAt (c :: cs) || hasBad cs

def chunksOk_fuel : Nat → List Char → Bool
  | 0, s => s.isEmpty
  | _ + 1, [] => true
  | fuel + 1, c :: cs =>
    if c = '<' then
      match matchTagAt (c :: cs) with
      | some (_, m, r) => !(m.tail.contains '<') && chunksOk_fuel fuel r
      | none => false
    else chunksOk_fuel fuel cs

def chunksOk (s : List Char) : Bool := chunksOk_fuel s.length s

lemma chunksOk_fuel_eq :
    ∀ f1 f2 s, s.length ≤ f1 → s.length ≤ f2 →
      chunksOk_fuel f1 s = chunksOk_fuel f2 s := by
  intro f1
  induction f1 with
  | zero =>
    intro f2 s h1 _
    have hs : s = [] := List.length_eq_zero.mp (Nat.le_zero.mp h1)
    subst hs
    cases f2 <;> rfl
  | succ f ih =>
    intro f2 s h1 h2
    cases s with
    | nil => cases f2 <;> rfl
    | cons c cs =>
      cases f2 with
      | zero => simp at h2
      | succ g =>
        show (if c = '<' then
            match matchTagAt (c :: cs) with
            | some (_, m, r) => !(m.tail.contains '<') && chunksOk_fuel f r
            | none => false
          else chunksOk_fuel f cs) =
          (if c = '<' then
            match matchTagAt (c :: cs) with
            | some (_, m, r) => !(m.tail.contains '<') && chunksOk_fuel g r
            | none => false
          else chunksOk_fuel g cs)
        by_cases hc : c = '<'
        · rw [if_pos hc, if_pos hc]
          cases hm : matchTagAt (c :: cs) with
          | some x =>
            obtain ⟨n, m, r⟩ := x
            have hr := matchTagAt_length hm
            simp only [List.length_cons] at hr h1 h2
            simp only []
            rw [ih g r (by omega) (by omega)]
          | none => rfl
        · rw [if_neg hc, if_neg hc]
          simp only [List.length_cons] at h1 h2
          exact ih g cs (by omega) (by omega)

lemma chunksOk_cons_not_lt {c : Char} (hc : c ≠ '<') (cs : List Char) :
    chunksOk (c :: cs) = chunksOk cs := by
  show chunksOk_fuel (cs.length + 1) (c :: cs) = _
  rw [show chunksOk_fuel (cs.length + 1) (c :: cs) =
    (if c = '<' then
      match matchTagAt (c :: cs) with
      | some (_, m, r) => !(m.tail.contains '<') && chunksOk_fuel cs.length r
      | none => false
    else chunksOk_fuel cs.length cs) from rfl, if_neg hc]
  rfl

lemma chunksOk_cons_match {c : Char} {cs n m r : List Char} (hc : c = '<')
    (hm : matchTagAt (c :: cs) = some (n, m, r)) :
    chunksOk (c :: cs) = (!(m.tail.contains '<') && chunksOk r) := by
  have hr := matchTagAt_length hm
  simp only [List.length_cons] at hr
  show chunksOk_fuel (cs.length + 1) (c :: cs) = _
  rw [show chunksOk_fuel (cs.length + 1) (c :: cs) =
    (if c = '<' then
      match matchTagAt (c :: cs) with
      | some (_, m, r) => !(m.tail.contains '<') && chunksOk_fuel cs.length r
      | none => false
    else chunksOk_fuel cs.length cs) from rfl, if_pos hc, hm]
  simp only []
  rw [chunksOk_fuel_eq cs.length r.length r (by omega) le_rfl]
  rfl

lemma chunksOk_cons_lt_nomatch {c : Char} {cs : List Char} (hc : c = '<')
    (hm : matchTagAt (c :: cs) = none) : chunksOk (c :: cs) = false := by
  show chunksOk_fuel (cs.length + 1) (c :: cs) = _
  rw [show chunksOk_fuel (cs.length + 1) (c :: cs) =
    (if c = '<' then
      match matchTagAt (c :: cs) with
      | some (_, m, r) => !(m.tail.contains '<') && chunksOk_fuel cs.length r
      | none => false
    else chunksOk_fuel cs.length cs) from rfl, if_pos hc, hm]

lemma scriptOpenAt_none_not_lt {c : Char} (hc : c ≠ '<') (cs : List Char) :
    scriptOpenAt (c :: cs) = none := by
  rw [scriptOpenAt_cons, if_neg hc]

lemma matchScriptAt_none_of_open {s : List Char} (h : scriptOpenAt s = none) :
    matchScriptAt s = none := by
  unfold matchScriptAt
  rw [h]

lemma badAt_cons_not_lt {c : Char} (hc : c ≠ '<') (cs : List Char) :
    badAt (c :: cs) = false := by
  unfold badAt disallowedAt
  rw [matchTagAt_none_not_lt hc, scriptOpenAt_none_not_lt hc]
  rfl

lemma hasBad_append_not_lt {a : List Char} (ha : '<' ∉ a) (z : List Char) :
    hasBad (a ++ z) = hasBad z := by
  induction a with
  | nil => rfl
  | cons x xs ih =>
    have hx : x ≠ '<' := fun h => ha (h ▸ List.mem_cons_self x xs)
    show (badAt (x :: (xs ++ z)) || hasBad (xs ++ z)) = hasBad z
    rw [badAt_cons_not_lt hx, ih (fun h => ha (List.mem_cons_of_mem x h))]
    rfl

lemma map_eq_cons_split {f : Char → Char} {l : List Char} {a : Char} {rest : List Char}
    (h : l.map f = a :: rest) : ∃ x xs, l = x :: xs ∧ f x = a ∧ xs.map f = rest := by
  cases l with
  | nil => simp at h
  | cons x xs =>
    simp only [List.map_cons, List.cons.injEq] at h
    exact ⟨x, xs, rfl, h.1, h.2⟩

lemma matchCI_keywords_none {n : List Char}
    (hmem : n.map toLowerChar ∈ allowed) (t : List Char) :
    matchCI "script".data (n ++ t) = none ∧ matchCI "style".data (n ++ t) = none := by
  simp only [allowed, List.map_cons, List.map_nil, List.mem_cons,
    List.not_mem_nil, or_false] at hmem
  have hscr : "script".data = ['s', 'c', 'r', 'i', 'p', 't'] := rfl
  have hsty : "style".data = ['s', 't', 'y', 'l', 'e'] := rfl
  rcases hmem with h | h | h | h | h | h | h
  case inl =>
    obtain ⟨c0, n1, rfl, h0, _⟩ := map_eq_cons_split h
    constructor <;> simp [matchCI, hscr, hsty, h0]
  case inr.inl =>
    obtain ⟨c0, n1, rfl, h0, _⟩ := map_eq_cons_split h
    constructor <;> simp [matchCI, hscr, hsty, h0]
  case inr.inr.inl =>
    obtain ⟨c0, n1, rfl, h0, _⟩ := map_eq_cons_split h
    constructor <;> simp [matchCI, hscr, hsty, h0]
  case inr.inr.inr.inl =>
    obtain ⟨c0, n1, rfl, h0, _⟩ := map_eq_cons_split h
    constructor <;> simp [matchCI, hscr, hsty, h0]
  case inr.inr.inr.inr.inl =>
    obtain ⟨c0, n1, rfl, h0, h1r⟩ := map_eq_cons_split h
    obtain ⟨c1, n2, rfl, h1, h2r⟩ := map_eq_cons_split h1r
    obtain ⟨c2, n3, rfl, h2, _⟩ := map_eq_cons_split h2r
    constructor <;> simp [matchCI, hscr, hsty, h0, h1, h2]
  case inr.inr.inr.inr.inr.inl =>
    obtain ⟨c0, n1, rfl, h0, _⟩ := map_eq_cons_split h
    constructor <;> simp [matchCI, hscr, hsty, h0]
  case inr.inr.inr.inr.inr.inr =>
    obtain ⟨c0, n1, rfl, h0, _⟩ := map_eq_cons_split h
    constructor <;> simp [matchCI, hscr, hsty, h0]

lemma matchCI_keyword_slash (t : List Char) :
    matchCI "script".data ('/' :: t) = none ∧ matchCI "style".data ('/' :: t) = none := by
  constructor <;> simp [matchCI, toLowerChar]

lemma scriptOpen_none_of_allowed {n m : List Char} (hts : TagShape n m)
    (hal : allowed.contains (n.map toLowerChar) = true) (l : List Char) :
    scriptOpenAt (m ++ l) = none := by
  have hmem : n.map toLowerChar ∈ allowed := by
    simpa using hal
  rcases hts with ⟨mc, hshape, rfl⟩ | ⟨mc, hshape, rfl⟩
  · have hafter : ∃ t, mc ++ l = n ++ t := by
      cases hshape with
      | simple hne hall => exact ⟨'>' :: l, by simp⟩
      | withAttrs w att hne hall hw hgt => exact ⟨(w :: att) ++ '>' :: l, by simp⟩
    obtain ⟨t, ht⟩ := hafter
    rw [List.cons_append, scriptOpenAt_cons, if_pos rfl, ht,
      (matchCI_keywords_none hmem t).1, (matchCI_keywords_none hmem t).2]
  · rw [List.cons_append, scriptOpenAt_cons, if_pos rfl]
    simp only [List.cons_append]
    rw [(matchCI_keyword_slash (mc ++ l)).1, (matchCI_keyword_slash (mc ++ l)).2]

lemma hasBad_split_forms {u : List Char} (h : hasBad u = false) :
    hasDisallowedTag u = false ∧ hasScriptOpen u = false ∧ hasScriptElem u = false := by
  induction u with
  | nil => exact ⟨rfl, rfl, rfl⟩
  | cons c cs ih =>
    have hh : badAt (c :: cs) = false ∧ hasBad cs = false := by
      have : (badAt (c :: cs) || hasBad cs) = false := h
      simpa using this
    have hb := hh.1
    unfold badAt at hb
    simp only [Bool.or_eq_false_iff] at hb
    obtain ⟨ih1, ih2, ih3⟩ := ih hh.2
    refine ⟨?_, ?_, ?_⟩
    · show (disallowedAt (c :: cs) || hasDisallowedTag cs) = false
      rw [hb.1, ih1]
      rfl
    · show ((scriptOpenAt (c :: cs)).isSome || hasScriptOpen cs) = false
      rw [hb.2, ih2]
      rfl
    · show ((matchScriptAt (c :: cs)).isSome || hasScriptElem cs) = false
      have hop : scriptOpenAt (c :: cs) = none := by
        have := hb.2
        cases hx : scriptOpenAt (c :: cs)
        · rfl
        · rw [hx] at this; simp at this
      rw [matchScriptAt_none_of_open hop, ih3]
      rfl

lemma chunks_master :
    ∀ N t, t.length ≤ N → chunksOk t = true → hasBad (strip_disallowed t) = false := by
  intro N
  induction N with
  | zero =>
    intro t h1 _
    have ht : t = [] := List.length_eq_zero.mp (Nat.le_zero.mp h1)
    subst ht
    rfl
  | succ N ih =>
    intro t h1 hok
    cases t with
    | nil => rfl
    | cons c cs =>
      by_cases hc : c = '<'
      · cases hm : matchTagAt (c :: cs) with
        | none => rw [chunksOk_cons_lt_nomatch hc hm] at hok; exact absurd hok (by simp)
        | some x =>
          obtain ⟨n, m, r⟩ := x
          rw [chunksOk_cons_match hc hm] at hok
          simp only [Bool.and_eq_true, Bool.not_eq_true'] at hok
          obtain ⟨hnl, hcr⟩ := hok
          have hrlen : r.length ≤ N := by
            have := matchTagAt_length hm
            simp only [List.length_cons] at this h1
            omega
          have hout := ih r hrlen hcr
          rw [strip_disallowed_match hm]
          by_cases hal : allowed.contains (n.map toLowerChar) = true
          · rw [if_pos hal]
            obtain ⟨hsp, hshape⟩ := matchTagAt_sound hm
            obtain ⟨mt, hmt⟩ := hshape.head_lt
            have hnotin : '<' ∉ mt := by
              intro hmem
              rw [hmt] at hnl
              simp only [List.tail_cons] at hnl
              have hcon : mt.contains '<' = true := by
                simpa using hmem
              rw [hcon] at hnl
              exact Bool.noConfusion hnl
            have hbadhead : badAt (m ++ strip_disallowed r) = false := by
              unfold badAt disallowedAt
              rw [matchTagAt_stable hm, scriptOpen_none_of_allowed hshape hal]
              simp only [Option.isSome_none, Bool.or_false]
              rw [hal]
              rfl
            rw [hmt]
            show (badAt (('<' :: mt) ++ strip_disallowed r) ||
              hasBad (mt ++ strip_disallowed r)) = false
            rw [← hmt, hbadhead, hasBad_append_not_lt hnotin, hout]
            rfl
          · rw [if_neg hal]
            simpa using hout
      · rw [chunksOk_cons_not_lt hc] at hok
        have hcs : cs.length ≤ N := by
          simp only [List.length_cons] at h1
          omega
        rw [strip_disallowed_nomatch (matchTagAt_none_not_lt hc cs)]
        show (badAt (c :: strip_disallowed cs) || hasBad (strip_disallowed cs)) = false
        rw [badAt_cons_not_lt hc, ih cs hcs hok]
        rfl

/-!
### `strip_tags` and `normalize_ws` (main.py lines 71-76)

`strip_tags` replaces every match of `<[^>]+>` by a space and then
normalizes whitespace (strip, then collapse runs of whitespace to one
space).  A match of `<[^>]+>` at a position is: `<`, then at least one
character, reaching the first `>` (the greedy `[^>]+` cannot cross `>`).
-/

/-- Match `<[^>]+>` at the head of `s`; returns the rest after the `>`. -/
def matchSimpleTagAt (s : List Char) : Option (List Char) :=
  match s with
  | [] => none
  | c :: r0 =>
    if c = '<' then
      match r0.takeWhile (fun x => x != '>') with
      | [] => none
      | _ :: _ =>
        match r0.dropWhile (fun x => x != '>') with
        | [] => none
        | _ :: r2 => some r2
    else none

def remove_tags_fuel : Nat → List Char → List Char
  | 0, s => s
  | _ + 1, [] => []
  | fuel + 1, c :: cs =>
    match matchSimpleTagAt (c :: cs) with
    | some r => ' ' :: remove_tags_fuel fuel r
    | none => c :: remove_tags_fuel fuel cs

/-- `re.sub(r"(?is)<[^>]+>", " ", html)`. -/
def remove_tags (s : List Char) : List Char := remove_tags_fuel s.length s

def collapse_ws_fuel : Nat → List Char → List Char
  | 0, s => s
  | _ + 1, [] => []
  | fuel + 1, c :: cs =>
    if isSpaceChar c then ' ' :: collapse_ws_fuel fuel (cs.dropWhile isSpaceChar)
    else c :: collapse_ws_fuel fuel cs

/-- `re.sub(r"\s+", " ", s)`. -/
def collapse_ws (s : List Char) : List Char := collapse_ws_fuel s.length s

/-- `normalize_ws` (main.py line 71): strip, then collapse whitespace. -/
def normalize_ws (s : List Char) : List Char := collapse_ws (pyStrip s)

/-- `strip_tags` (main.py line 75). -/
def strip_tags (s : List Char) : List Char := normalize_ws (remove_tags s)

example : strip_tags "<b>Big</b> news &amp; more".data = "Big news &amp; more".data := by
  decide
example : strip_tags "a < b".data = "a < b".data := by decide
example : strip_tags "  x   y ".data = "x y".data := by decide

lemma matchSimpleTagAt_cons (c : Char) (r0 : List Char) :
    matchSimpleTagAt (c :: r0) =
      (if c = '<' then
        match r0.takeWhile (fun x => x != '>') with
        | [] => none
        | _ :: _ =>
          match r0.dropWhile (fun x => x != '>') with
          | [] => none
          | _ :: r2 => some r2
      else none) := rfl

lemma matchSimpleTagAt_isSome_iff {c : Char} {cs : List Char} :
    (matchSimpleTagAt (c :: cs)).isSome = true ↔
      (c = '<' ∧ (∃ d ds, cs = d :: ds ∧ d ≠ '>') ∧ '>' ∈ cs) := by
  rw [matchSimpleTagAt_cons]
  by_cases hc : c = '<'
  · rw [if_pos hc]
    cases cs with
    | nil => simp [hc]
    | cons d ds =>
      by_cases hd : d = '>'
      · subst hd
        have ht : ('>' :: ds).takeWhile (fun x => x != '>') = [] := by
          simp [List.takeWhile_cons]
        rw [ht]
        constructor
        · intro hfalse
          exact absurd hfalse (by simp)
        · rintro ⟨-, ⟨e, es, heq, hne⟩, -⟩
          injection heq with h1 _
          exact absurd h1.symm hne
      · have hpd : (d != '>') = true := by simpa using hd
        have ht : (d :: ds).takeWhile (fun x => x != '>') =
            d :: ds.takeWhile (fun x => x != '>') := by
          simp [List.takeWhile_cons, hpd]
        rw [ht]
        by_cases hmem : '>' ∈ d :: ds
        · have hnn : (d :: ds).dropWhile (fun x => x != '>') ≠ [] := by
            rw [ne_eq, List.dropWhile_eq_nil_iff]
            push_neg
            exact ⟨'>', hmem, by simp⟩
          cases hdw : (d :: ds).dropWhile (fun x => x != '>') with
          | nil => exact absurd hdw hnn
          | cons g r2 =>
            simp only []
            constructor
            · intro _
              exact ⟨hc, ⟨d, ds, rfl, hd⟩, hmem⟩
            · intro _
              rfl
        · have hnil : (d :: ds).dropWhile (fun x => x != '>') = [] := by
            rw [List.dropWhile_eq_nil_iff]
            intro x hx
            simp only [bne_iff_ne, ne_eq, decide_eq_true_eq]
            intro hg
            exact hmem (hg ▸ hx)
          rw [hnil]
          constructor
          · intro hfalse
            exact absurd hfalse (by simp)
          · rintro ⟨-, -, hmem2⟩
            exact absurd hmem2 hmem
  · rw [if_neg hc]
    simp [hc]

lemma matchSimpleTagAt_none_not_lt {c : Char} (hc : c ≠ '<') (cs : List Char) :
    matchSimpleTagAt (c :: cs) = none := by
  rw [matchSimpleTagAt_cons, if_neg hc]

lemma matchSimpleTagAt_none_no_gt {c : Char} {cs : List Char} (h : '>' ∉ cs) :
    matchSimpleTagAt (c :: cs) = none := by
  cases hx : matchSimpleTagAt (c :: cs) with
  | none => rfl
  | some r =>
    have : (matchSimpleTagAt (c :: cs)).isSome = true := by rw [hx]; rfl
    obtain ⟨-, -, hmem⟩ := matchSimpleTagAt_isSome_iff.mp this
    exact absurd hmem h

lemma matchSimpleTagAt_length {s r : List Char}
    (h : matchSimpleTagAt s = some r) : r.length < s.length := by
  cases s with
  | nil => simp [matchSimpleTagAt] at h
  | cons c r0 =>
    rw [matchSimpleTagAt_cons] at h
    by_cases hc : c = '<'
    · rw [if_pos hc] at h
      cases ht : r0.takeWhile (fun x => x != '>') with
      | nil => rw [ht] at h; simp at h
      | cons a as =>
        rw [ht] at h
        simp only [] at h
        cases hdw : r0.dropWhile (fun x => x != '>') with
        | nil => rw [hdw] at h; simp at h
        | cons g r2 =>
          rw [hdw] at h
          simp only [Option.some.injEq] at h
          subst h
          have h1 : (g :: r2).length ≤ r0.length :=
            hdw ▸ (List.dropWhile_suffix _).sublist.length_le
          simp only [List.length_cons] at h1 ⊢
          omega
    · rw [if_neg hc] at h; simp at h

def hasSimpleTag : List Char → Bool
  | [] => false
  | c :: cs => (matchSimpleTagAt (c :: cs)).isSome || hasSimpleTag cs

lemma remove_tags_fuel_eq :
    ∀ f1 f2 s, s.length ≤ f1 → s.length ≤ f2 →
      remove_tags_fuel f1 s = remove_tags_fuel f2 s := by
  intro f1
  induction f1 with
  | zero =>
    intro f2 s h1 _
    have hs : s = [] := List.length_eq_zero.mp (Nat.le_zero.mp h1)
    subst hs
    cases f2 <;> rfl
  | succ f ih =>
    intro f2 s h1 h2
    cases s with
    | nil => cases f2 <;> rfl
    | cons c cs =>
      cases f2 with
      | zero => simp at h2
      | succ g =>
        show (match matchSimpleTagAt (c :: cs) with
          | some r => ' ' :: remove_tags_fuel f r
          | none => c :: remove_tags_fuel f cs) =
          (match matchSimpleTagAt (c :: cs) with
          | some r => ' ' :: remove_tags_fuel g r
          | none => c :: remove_tags_fuel g cs)
        cases hm : matchSimpleTagAt (c :: cs) with
        | some r =>
          have hr := matchSimpleTagAt_length hm
          simp only [List.length_cons] at hr h1 h2
          simp only []
          rw [ih g r (by omega) (by omega)]
        | none =>
          simp only [List.length_cons] at h1 h2
          simp only []
          rw [ih g cs (by omega) (by omega)]

lemma remove_tags_match {c : Char} {cs r : List Char}
    (hm : matchSimpleTagAt (c :: cs) = some r) :
    remove_tags (c :: cs) = ' ' :: remove_tags r := by
  have hr := matchSimpleTagAt_length hm
  simp only [List.length_cons] at hr
  show remove_tags_fuel (cs.length + 1) (c :: cs) = _
  rw [show remove_tags_fuel (cs.length + 1) (c :: cs) =
    (match matchSimpleTagAt (c :: cs) with
      | some r => ' ' :: remove_tags_fuel cs.length r
      | none => c :: remove_tags_fuel cs.length cs) from rfl, hm]
  simp only []
  rw [remove_tags_fuel_eq cs.length r.length r (by omega) le_rfl]
  rfl

lemma remove_tags_nomatch {c : Char} {cs : List Char}
    (hm : matchSimpleTagAt (c :: cs) = none) :
    remove_tags (c :: cs) = c :: remove_tags cs := by
  show remove_tags_fuel (cs.length + 1) (c :: cs) = _
  rw [show remove_tags_fuel (cs.length + 1) (c :: cs) =
    (match matchSimpleTagAt (c :: cs) with
      | some r => ' ' :: remove_tags_fuel cs.length r
      | none => c :: remove_tags_fuel cs.length cs) from rfl, hm]
  rfl

lemma hasSimpleTag_no_gt {s : List Char} (h : '>' ∉ s) : hasSimpleTag s = false := by
  induction s with
  | nil => rfl
  | cons c cs ih =>
    show ((matchSimpleTagAt (c :: cs)).isSome || hasSimpleTag cs) = false
    rw [matchSimpleTagAt_none_no_gt (fun hm => h (List.mem_cons_of_mem c hm)),
      ih (fun hm => h (List.mem_cons_of_mem c hm))]
    rfl

lemma remove_tags_no_gt {s : List Char} (h : '>' ∉ s) : remove_tags s = s := by
  induction s with
  | nil => rfl
  | cons c cs ih =>
    rw [remove_tags_nomatch (matchSimpleTagAt_none_no_gt
      (fun hm => h (List.mem_cons_of_mem c hm))),
      ih (fun hm => h (List.mem_cons_of_mem c hm))]

lemma hasSimpleTag_extend_right {u v : List Char} (h : hasSimpleTag u = true) :
    hasSimpleTag (u ++ v) = true := by
  induction u with
  | nil => exact absurd h (by simp [hasSimpleTag])
  | cons c cs ih =>
    have hh : ((matchSimpleTagAt (c :: cs)).isSome || hasSimpleTag cs) = true := h
    show ((matchSimpleTagAt (c :: (cs ++ v))).isSome || hasSimpleTag (cs ++ v)) = true
    rcases Bool.or_eq_true_iff.mp hh with h1 | h1
    · obtain ⟨hc, ⟨d, ds, rfl, hd⟩, hmem⟩ := matchSimpleTagAt_isSome_iff.mp h1
      have : (matchSimpleTagAt (c :: (d :: ds ++ v))).isSome = true := by
        rw [matchSimpleTagAt_isSome_iff]
        refine ⟨hc, ⟨d, ds ++ v, by simp, hd⟩, ?_⟩
        rcases List.mem_cons.mp hmem with h2 | h2
        · exact List.mem_cons.mpr (Or.inl h2)
        · exact List.mem_cons.mpr (Or.inr (List.mem_append_left v h2))
      rw [this]
      rfl
    · rw [ih h1]
      simp

lemma hasSimpleTag_of_suffix {u v : List Char} (h : hasSimpleTag v = true) :
    hasSimpleTag (u ++ v) = true := by
  induction u with
  | nil => exact h
  | cons c cs ih =>
    show ((matchSimpleTagAt (c :: (cs ++ v))).isSome || hasSimpleTag (cs ++ v)) = true
    rw [ih]
    simp

lemma noTag_of_append_left {u v : List Char} (h : hasSimpleTag (u ++ v) = false) :
    hasSimpleTag u = false := by
  cases hx : hasSimpleTag u with
  | false => rfl
  | true => rw [hasSimpleTag_extend_right hx] at h; exact h.symm ▸ rfl

lemma noTag_of_append_right {u v : List Char} (h : hasSimpleTag (u ++ v) = false) :
    hasSimpleTag v = false := by
  cases hx : hasSimpleTag v with
  | false => rfl
  | true => rw [hasSimpleTag_of_suffix hx] at h; exact h.symm ▸ rfl

lemma matchSimpleTagAt_suffix {s r : List Char}
    (h : matchSimpleTagAt s = some r) : ∃ pre, s = pre ++ r := by
  cases s with
  | nil => simp [matchSimpleTagAt] at h
  | cons c r0 =>
    rw [matchSimpleTagAt_cons] at h
    by_cases hc : c = '<'
    · rw [if_pos hc] at h
      cases ht : r0.takeWhile (fun x => x != '>') with
      | nil => rw [ht] at h; simp at h
      | cons a as =>
        rw [ht] at h
        simp only [] at h
        cases hdw : r0.dropWhile (fun x => x != '>') with
        | nil => rw [hdw] at h; simp at h
        | cons g r2 =>
          rw [hdw] at h
          simp only [Option.some.injEq] at h
          subst h
          have hsplit : r0.takeWhile (fun x => x != '>') ++
              r0.dropWhile (fun x => x != '>') = r0 :=
            List.takeWhile_append_dropWhile _ _
          refine ⟨c :: (r0.takeWhile (fun x => x != '>') ++ [g]), ?_⟩
          rw [List.cons_append]
          congr 1
          conv_lhs => rw [← hsplit, hdw]
          simp
    · rw [if_neg hc] at h; simp at h

lemma mem_gt_remove_tags_aux :
    ∀ N cs, cs.length ≤ N → '>' ∈ remove_tags cs → '>' ∈ cs := by
  intro N
  induction N with
  | zero =>
    intro cs h1 h
    have hs : cs = [] := List.length_eq_zero.mp (Nat.le_zero.mp h1)
    subst hs
    exact absurd h (by simp [remove_tags, remove_tags_fuel])
  | succ N ih =>
    intro cs h1 h
    cases cs with
    | nil => exact absurd h (by simp [remove_tags, remove_tags_fuel])
    | cons x xs =>
      simp only [List.length_cons] at h1
      cases hm : matchSimpleTagAt (x :: xs) with
      | some r =>
        rw [remove_tags_match hm] at h
        rcases List.mem_cons.mp h with h2 | h2
        · exact absurd h2.symm (by decide)
        · have hr := matchSimpleTagAt_length hm
          simp only [List.length_cons] at hr
          have hmr : '>' ∈ r := ih r (by omega) h2
          obtain ⟨pre, hpre⟩ := matchSimpleTagAt_suffix hm
          rw [hpre]
          exact List.mem_append_right pre hmr
      | none =>
        rw [remove_tags_nomatch hm] at h
        rcases List.mem_cons.mp h with h2 | h2
        · exact h2 ▸ List.mem_cons_self x xs
        · exact List.mem_cons_of_mem x (ih xs (by omega) h2)

lemma mem_gt_remove_tags {cs : List Char} (h : '>' ∈ remove_tags cs) : '>' ∈ cs :=
  mem_gt_remove_tags_aux cs.length cs le_rfl h

lemma remove_tags_noTag :
    ∀ N s, s.length ≤ N → hasSimpleTag (remove_tags s) = false := by
  intro N
  induction N with
  | zero =>
    intro s h1
    have hs : s = [] := List.length_eq_zero.mp (Nat.le_zero.mp h1)
    subst hs
    rfl
  | succ N ih =>
    intro s h1
    cases s with
    | nil => rfl
    | cons c cs =>
      simp only [List.length_cons] at h1
      cases hm : matchSimpleTagAt (c :: cs) with
      | some r =>
        have hr := matchSimpleTagAt_length hm
        simp only [List.length_cons] at hr
        rw [remove_tags_match hm]
        show ((matchSimpleTagAt (' ' :: remove_tags r)).isSome ||
          hasSimpleTag (remove_tags r)) = false
        rw [matchSimpleTagAt_none_not_lt (by decide), ih r (by omega)]
        rfl
      | none =>
        rw [remove_tags_nomatch hm]
        show ((matchSimpleTagAt (c :: remove_tags cs)).isSome ||
          hasSimpleTag (remove_tags cs)) = false
        rw [ih cs (by omega)]
        by_cases hc : c = '<'
        · subst hc
          cases hy : (matchSimpleTagAt ('<' :: remove_tags cs)).isSome with
          | false => rfl
          | true =>
            exfalso
            obtain ⟨-, ⟨d, ds, hds, hd⟩, hmem⟩ := matchSimpleTagAt_isSome_iff.mp hy
            have hmemcs : '>' ∈ cs := mem_gt_remove_tags (hds ▸ hmem)
            have hcs : ∃ x xs, cs = x :: xs ∧ x ≠ '>' := by
              cases cs with
              | nil => exact absurd hmemcs (by simp)
              | cons x xs =>
                refine ⟨x, xs, rfl, ?_⟩
                intro hxg
                subst hxg
                have hnone : matchSimpleTagAt ('>' :: xs) = none :=
                  matchSimpleTagAt_none_not_lt (by decide) xs
                rw [remove_tags_nomatch hnone] at hds
                injection hds with hh1 _
                exact hd hh1.symm
            obtain ⟨x, xs, rfl, hx⟩ := hcs
            have hsome : (matchSimpleTagAt ('<' :: x :: xs)).isSome = true := by
              rw [matchSimpleTagAt_isSome_iff]
              exact ⟨rfl, ⟨x, xs, rfl, hx⟩, hmemcs⟩
            rw [hm] at hsome
            exact Bool.noConfusion hsome
        · rw [matchSimpleTagAt_none_not_lt hc]
          rfl

lemma noTag_pyStrip {s : List Char} (h : hasSimpleTag s = false) :
    hasSimpleTag (pyStrip s) = false := by
  have h1 : hasSimpleTag (s.dropWhile isSpaceChar) = false := by
    have := List.takeWhile_append_dropWhile (p := isSpaceChar) (l := s)
    exact noTag_of_append_right (by rw [this]; exact h)
  set t := s.dropWhile isSpaceChar with ht
  have hsplit : t = pyStrip s ++ (t.reverse.takeWhile isSpaceChar).reverse := by
    have := List.takeWhile_append_dropWhile (p := isSpaceChar) (l := t.reverse)
    have h2 : t.reverse.reverse =
        ((t.reverse.takeWhile isSpaceChar) ++ (t.reverse.dropWhile isSpaceChar)).reverse := by
      rw [this]
    rw [List.reverse_reverse, List.reverse_append] at h2
    exact h2
  exact noTag_of_append_left (by rw [← hsplit]; exact h1)

lemma collapse_ws_fuel_eq :
    ∀ f1 f2 s, s.length ≤ f1 → s.length ≤ f2 →
      collapse_ws_fuel f1 s = collapse_ws_fuel f2 s := by
  intro f1
  induction f1 with
  | zero =>
    intro f2 s h1 _
    have hs : s = [] := List.length_eq_zero.mp (Nat.le_zero.mp h1)
    subst hs
    cases f2 <;> rfl
  | succ f ih =>
    intro f2 s h1 h2
    cases s with
    | nil => cases f2 <;> rfl
    | cons c cs =>
      cases f2 with
      | zero => simp at h2
      | succ g =>
        show (if isSpaceChar c then ' ' :: collapse_ws_fuel f (cs.dropWhile isSpaceChar)
            else c :: collapse_ws_fuel f cs) =
          (if isSpaceChar c then ' ' :: collapse_ws_fuel g (cs.dropWhile isSpaceChar)
            else c :: collapse_ws_fuel g cs)
        simp only [List.length_cons] at h1 h2
        have hd : (cs.dropWhile isSpaceChar).length ≤ cs.length :=
          (List.dropWhile_suffix _).sublist.length_le
        by_cases hc : isSpaceChar c = true
        · rw [if_pos hc, if_pos hc, ih g _ (by omega) (by omega)]
        · rw [if_neg hc, if_neg hc, ih g cs (by omega) (by omega)]

lemma collapse_ws_cons_space {c : Char} {cs : List Char} (hc : isSpaceChar c = true) :
    collapse_ws (c :: cs) = ' ' :: collapse_ws (cs.dropWhile isSpaceChar) := by
  show collapse_ws_fuel (cs.length + 1) (c :: cs) = _
  rw [show collapse_ws_fuel (cs.length + 1) (c :: cs) =
    (if isSpaceChar c then ' ' :: collapse_ws_fuel cs.length (cs.dropWhile isSpaceChar)
      else c :: collapse_ws_fuel cs.length cs) from rfl, if_pos hc]
  have hd : (cs.dropWhile isSpaceChar).length ≤ cs.length :=
    (List.dropWhile_suffix _).sublist.length_le
  rw [collapse_ws_fuel_eq cs.length (cs.dropWhile isSpaceChar).length _ (by omega) le_rfl]
  rfl

lemma collapse_ws_cons_nonspace {c : Char} {cs : List Char} (hc : isSpaceChar c = false) :
    collapse_ws (c :: cs) = c :: collapse_ws cs := by
  show collapse_ws_fuel (cs.length + 1) (c :: cs) = _
  rw [show collapse_ws_fuel (cs.length + 1) (c :: cs) =
    (if isSpaceChar c then ' ' :: collapse_ws_fuel cs.length (cs.dropWhile isSpaceChar)
      else c :: collapse_ws_fuel cs.length cs) from rfl, if_neg (by simp [hc])]
  rfl

lemma collapse_ws_nil : collapse_ws [] = [] := rfl

lemma mem_gt_collapse_aux :
    ∀ N cs, cs.length ≤ N → '>' ∈ collapse_ws cs → '>' ∈ cs := by
  intro N
  induction N with
  | zero =>
    intro cs h1 h
    have hs : cs = [] := List.length_eq_zero.mp (Nat.le_zero.mp h1)
    subst hs
    rw [collapse_ws_nil] at h
    exact absurd h (by simp)
  | succ N ih =>
    intro cs h1 h
    cases cs with
    | nil => rw [collapse_ws_nil] at h; exact absurd h (by simp)
    | cons x xs =>
      simp only [List.length_cons] at h1
      by_cases hx : isSpaceChar x = true
      · rw [collapse_ws_cons_space hx] at h
        rcases List.mem_cons.mp h with h2 | h2
        · exact absurd h2 (by decide)
        · have hdl : (xs.dropWhile isSpaceChar).length ≤ N := by
            have := (List.dropWhile_suffix (p := isSpaceChar) (l := xs)).sublist.length_le
            omega
          have hmem := ih _ hdl h2
          exact List.mem_cons_of_mem x ((List.dropWhile_suffix _).subset hmem)
      · rw [collapse_ws_cons_nonspace (by simpa using hx)] at h
        rcases List.mem_cons.mp h with h2 | h2
        · exact h2 ▸ List.mem_cons_self x xs
        · exact List.mem_cons_of_mem x (ih xs (by omega) h2)

lemma mem_gt_collapse {cs : List Char} (h : '>' ∈ collapse_ws cs) : '>' ∈ cs :=
  mem_gt_collapse_aux cs.length cs le_rfl h

lemma head_gt_collapse {cs : List Char} {t : List Char}
    (h : collapse_ws cs = '>' :: t) : ∃ ts, cs = '>' :: ts := by
  cases cs with
  | nil => rw [collapse_ws_nil] at h; exact absurd h (by simp)
  | cons x xs =>
    by_cases hx : isSpaceChar x = true
    · rw [collapse_ws_cons_space hx] at h
      injection h with h1 _
      exact absurd h1 (by decide)
    · rw [collapse_ws_cons_nonspace (by simpa using hx)] at h
      injection h with h1 _
      exact ⟨xs, by rw [h1]⟩

lemma noTag_collapse :
    ∀ N s, s.length ≤ N → hasSimpleTag s = false →
      hasSimpleTag (collapse_ws s) = false := by
  intro N
  induction N with
  | zero =>
    intro s h1 _
    have hs : s = [] := List.length_eq_zero.mp (Nat.le_zero.mp h1)
    subst hs
    rfl
  | succ N ih =>
    intro s h1 hs
    cases s with
    | nil => rfl
    | cons c cs =>
      simp only [List.length_cons] at h1
      have hcomp : ((matchSimpleTagAt (c :: cs)).isSome || hasSimpleTag cs) = false := hs
      rw [Bool.or_eq_false_iff] at hcomp
      by_cases hc : isSpaceChar c = true
      · rw [collapse_ws_cons_space hc]
        have hsub : hasSimpleTag (cs.dropWhile isSpaceChar) = false := by
          have := List.takeWhile_append_dropWhile (p := isSpaceChar) (l := cs)
          exact noTag_of_append_right (by rw [this]; exact hcomp.2)
        have hlen : (cs.dropWhile isSpaceChar).length ≤ N := by
          have := (List.dropWhile_suffix (p := isSpaceChar) (l := cs)).sublist.length_le
          omega
        show ((matchSimpleTagAt (' ' :: collapse_ws (cs.dropWhile isSpaceChar))).isSome ||
          hasSimpleTag (collapse_ws (cs.dropWhile isSpaceChar))) = false
        rw [matchSimpleTagAt_none_not_lt (by decide), ih _ hlen hsub]
        rfl
      · rw [collapse_ws_cons_nonspace (by simpa using hc)]
        show ((matchSimpleTagAt (c :: collapse_ws cs)).isSome ||
          hasSimpleTag (collapse_ws cs)) = false
        rw [ih cs (by omega) hcomp.2]
        by_cases hlt : c = '<'
        · subst hlt
          cases hy : (matchSimpleTagAt ('<' :: collapse_ws cs)).isSome with
          | false => rfl
          | true =>
            exfalso
            obtain ⟨-, ⟨d, ds, hds, hd⟩, hmem⟩ := matchSimpleTagAt_isSome_iff.mp hy
            have hmem2 : '>' ∈ cs := mem_gt_collapse (hds ▸ hmem)
            have hcs : ∃ x xs, cs = x :: xs ∧ x ≠ '>' := by
              cases cs with
              | nil => rw [collapse_ws_nil] at hds; exact absurd hds (by simp)
              | cons x xs =>
                refine ⟨x, xs, rfl, ?_⟩
                intro hxg
                subst hxg
                rw [collapse_ws_cons_nonspace (by decide)] at hds
                injection hds with hh1 _
                exact hd hh1.symm
            obtain ⟨x, xs, rfl, hx⟩ := hcs
            have hsome : (matchSimpleTagAt ('<' :: x :: xs)).isSome = true := by
              rw [matchSimpleTagAt_isSome_iff]
              exact ⟨rfl, ⟨x, xs, rfl, hx⟩, hmem2⟩
            rw [hsome] at hcomp
            exact Bool.noConfusion hcomp.1
        · rw [matchSimpleTagAt_none_not_lt hlt]
          rfl

lemma strip_tags_noTag (s : List Char) : hasSimpleTag (strip_tags s) = false := by
  have h1 := remove_tags_noTag s.length s le_rfl
  have h2 := noTag_pyStrip h1
  exact noTag_collapse (pyStrip (remove_tags s)).length _ le_rfl h2

/-!
### Identity lemmas for the sanitizer on markup-free text (for idempotence)
-/

lemma remove_script_style_id {s : List Char} (h : '<' ∉ s) :
    remove_script_style s = s := by
  induction s with
  | nil => rfl
  | cons c cs ih =>
    have hc : c ≠ '<' := fun e => h (e ▸ List.mem_cons_self c cs)
    rw [remove_script_style_nomatch
      (matchScriptAt_none_of_open (scriptOpenAt_none_not_lt hc cs)),
      ih (fun hm => h (List.mem_cons_of_mem c hm))]

lemma strip_disallowed_id {s : List Char} (h : '<' ∉ s) :
    strip_disallowed s = s := by
  induction s with
  | nil => rfl
  | cons c cs ih =>
    have hc : c ≠ '<' := fun e => h (e ▸ List.mem_cons_self c cs)
    rw [strip_disallowed_nomatch (matchTagAt_none_not_lt hc cs),
      ih (fun hm => h (List.mem_cons_of_mem c hm))]

/-- The body builder of `generate_body_html` after the API call (main.py
lines 418-432): sanitize, then substitute the fixed fallback paragraph for
an empty result. -/
def sanitize_body (s : List Char) : List Char :=
  let out := sanitize s
  if out = [] then "<p><strong>Summary</strong>: Not stated in the source.</p>".data
  else out

/-!
### The configuration model and `load_config` (main.py lines 90-156)

A parsed `config.json` is a document of optional fields.  JSON scalars that
feed Python `float()`/`int()` are modelled by `PyVal`; string parsing is
modelled for plain sign-and-digits literals (a subset of what Python
accepts, which is the safe direction: every string the model accepts,
Python accepts).  The numeric values themselves are never inspected
downstream, so `GenConfig` keeps the raw value (`none` when the 0.7/2200
default was taken).
-/

inductive PyVal
  | vnum (n : Int)
  | vstr (s : String)
  | vbool (b : Bool)
deriving DecidableEq

def isDigit (c : Char) : Bool := '0' ≤ c && c ≤ '9'

def isDecimalCore (t : List Char) : Bool :=
  let intpart := t.takeWhile isDigit
  let rest := t.dropWhile isDigit
  match rest with
  | [] => !intpart.isEmpty
  | '.' :: frac => (!intpart.isEmpty || !frac.isEmpty) && frac.all isDigit
  | _ => false

/-- Strings accepted by Python `float()` (modelled: optional sign, then
digits with an optional fractional part). -/
def isDecimalLit (s : List Char) : Bool :=
  match s with
  | [] => false
  | c :: cs => if c = '+' || c = '-' then isDecimalCore cs else isDecimalCore s

/-- Strings accepted by Python `int()` (modelled: optional sign, digits). -/
def isIntLit (s : List Char) : Bool :=
  match s with
  | [] => false
  | c :: cs =>
    if c = '+' || c = '-' then !cs.isEmpty && cs.all isDigit
    else s.all isDigit

def pyFloatOk : PyVal → Bool
  | .vnum _ => true
  | .vbool _ => true
  | .vstr s => isDecimalLit s.data

def pyIntOk : PyVal → Bool
  | .vnum _ => true
  | .vbool _ => true
  | .vstr s => isIntLit s.data

structure SiteDoc where
  title : Option String
  description : Option String
  base_url : Option String
deriving DecidableEq

structure GenDoc where
  model : Option String
  temperature : Option PyVal
  max_tokens : Option PyVal
deriving DecidableEq

structure ConfigDoc where
  site : Option SiteDoc
  rss_url : Option String
  generation : Option GenDoc
  contact_email : Option String
deriving DecidableEq

/-- `SiteConfig` (main.py lines 90-94). -/
structure SiteConfig where
  title : String
  description : String
  base_url : String
deriving DecidableEq

/-- `GenConfig` (main.py lines 97-101); numeric fields keep the raw JSON
value they were converted from (`none` when defaulted). -/
structure GenConfig where
  model : String
  temperature : Option PyVal
  max_tokens : Option PyVal
deriving DecidableEq

/-- `AppConfig` (main.py lines 104-109). -/
structure AppConfig where
  site : SiteConfig
  rss_url : String
  generation : GenConfig
  contact_email : String
deriving DecidableEq

/-- `die(msg, code)` raises SystemExit with that code; any uncaught Python
exception terminates the process with status 1. -/
inductive PyAbort
  | exit (code : Nat) (msg : String)
  | exc (msg : String)
deriving DecidableEq

def PyAbort.toCode : PyAbort → Nat
  | .exit c _ => c
  | .exc _ => 1

def PyAbort.toMsg : PyAbort → String
  | .exit _ m => m
  | .exc m => m

/-- `x or ""` for an optional string (absent and `""` are both falsy, and
both yield `""`). -/
def pyOrEmpty : Option String → String
  | none => ""
  | some s => s

/-- `x or default` for an optional string: absent or empty falls back. -/
def pyOrDefault (o : Option String) (d : String) : String :=
  match o with
  | none => d
  | some s => if s = "" then d else s

def pyStripS (s : String) : String := String.mk (pyStrip s.data)

def pyRstripSlashS (s : String) : String := String.mk (pyRstripSlash s.data)

def startsWithS (s pre : String) : Bool := pre.data.isPrefixOf s.data

/-- Python `", ".join(l)`. -/
def joinComma : List String → String
  | [] => ""
  | [x] => x
  | x :: xs => x ++ ", " ++ joinComma xs

def emptySiteDoc : SiteDoc := ⟨none, none, none⟩

def emptyGenDoc : GenDoc := ⟨none, none, none⟩

/-- The `missing` list built by `load_config` (main.py lines 133-143), in
the order the code appends to it. -/
def missingFields (cfg : ConfigDoc) : List String :=
  let site := cfg.site.getD emptySiteDoc
  let title := pyStripS (pyOrEmpty site.title)
  let desc := pyStripS (pyOrEmpty site.description)
  let base_url := pyRstripSlashS (pyStripS (pyOrEmpty site.base_url))
  let rss_url := pyStripS (pyOrEmpty cfg.rss_url)
  let contact_email := pyStripS (pyOrEmpty cfg.contact_email)
  (if title = "" then ["site.title"] else []) ++
    (if desc = "" then ["site.description"] else []) ++
    (if base_url = "" then ["site.base_url"] else []) ++
    (if rss_url = "" then ["rss_url"] else []) ++
    (if contact_email = "" then ["contact_email"] else [])

/-- Do the numeric generation fields convert (`float`/`int` do not raise)? -/
def numericFieldsOk (cfg : ConfigDoc) : Bool :=
  let gen := cfg.generation.getD emptyGenDoc
  (match gen.temperature with | none => true | some v => pyFloatOk v) &&
    (match gen.max_tokens with | none => true | some v => pyIntOk v)

/-- `load_config` (main.py lines 112-156).  The argument is the parsed
`config.json` document, `none` when the file does not exist.  The numeric
conversions run before the missing-field check, exactly as in the code, so
an unconvertible value aborts with an uncaught ValueError (exit status 1)
before any aggregation happens. -/
def load_config (doc : Option ConfigDoc) : Except PyAbort AppConfig :=
  match doc with
  | none => .error (.exit 2 "Copy config.example.json to config.json")
  | some cfg =>
    let site := cfg.site.getD emptySiteDoc
    let title := pyStripS (pyOrEmpty site.title)
    let desc := pyStripS (pyOrEmpty site.description)
    let base_url := pyRstripSlashS (pyStripS (pyOrEmpty site.base_url))
    let rss_url := pyStripS (pyOrEmpty cfg.rss_url)
    let gen := cfg.generation.getD emptyGenDoc
    let model := pyStripS (pyOrDefault gen.model "deepseek-chat")
    if (match gen.temperature with | none => true | some v => pyFloatOk v) = false then
      .error (.exc "ValueError: could not convert string to float")
    else if (match gen.max_tokens with | none => true | some v => pyIntOk v) = false then
      .error (.exc "ValueError: invalid literal for int with base 10")
    else
      let contact_email := pyStripS (pyOrEmpty cfg.contact_email)
      let missing := missingFields cfg
      if missing ≠ [] then
        .error (.exit 2 ("Missing required config fields: " ++ joinComma missing))
      else if (startsWithS base_url "http://" || startsWithS base_url "https://") = false then
        .error (.exit 2
          "config.site.base_url must start with https:// (example: https://YOURNAME.github.io/YOURREPO)")
      else
        .ok ⟨⟨title, desc, base_url⟩, rss_url,
          ⟨model, gen.temperature, gen.max_tokens⟩, contact_email⟩

deriving instance DecidableEq for Except

/-- Substring test on character lists. -/
def containsSub : List Char → List Char → Bool
  | [], pat => pat.isEmpty
  | c :: cs, pat => pat.isPrefixOf (c :: cs) || containsSub cs pat

def endsWithSlash (s : String) : Bool := s.data.reverse.head? == some '/'

example :
    load_config (some ⟨some ⟨some "T", some "D", some "https://e.x/"⟩,
        some "https://e.x/feed", none, some "a@b.c"⟩) =
      .ok ⟨⟨"T", "D", "https://e.x"⟩, "https://e.x/feed",
        ⟨"deepseek-chat", none, none⟩, "a@b.c"⟩ := by decide

example :
    load_config (some ⟨none, none, some ⟨none, some (.vstr "abc"), none⟩, none⟩) =
      .error (.exc "ValueError: could not convert string to float") := by decide

example :
    load_config (some ⟨none, none, none, none⟩) =
      .error (.exit 2 ("Missing required config fields: " ++
        "site.title, site.description, site.base_url, rss_url, contact_email")) := by
  decide

/-!
### Feed retrieval (`fetch_latest_item`, main.py lines 195-222)
-/

/-- One parsed feed entry with the fields read leniently via `e.get`;
`published_parsed` is the optional structured time (display only). -/
structure FeedEntry where
  title : Option String
  link : Option String
  summary : Option String
  description : Option String
  published : Option String
  updated : Option String
  published_parsed : Option String
deriving DecidableEq

/-- Outcome of `requests.get(rss_url)` followed by `feedparser.parse`:
`getRaises` models a raised request exception; otherwise `status` is the
HTTP status and `entries` the parsed entry list (feedparser itself never
raises; a garbage body parses to an empty list). -/
structure FeedResp where
  getRaises : Bool
  status : Nat
  entries : List FeedEntry
deriving DecidableEq

/-- The dictionary returned by `fetch_latest_item`. -/
structure FeedItem where
  title : String
  link : String
  summary : String
  published : String
  rss_url : String
  raw_entry : FeedEntry
deriving DecidableEq

/-- `a or b or ""` for optional strings (absent and `""` are falsy). -/
def pyOrChain2 (a b : Option String) : String :=
  pyOrDefault a (pyOrEmpty b)

/-- `fetch_latest_item` (main.py lines 195-222).  `raise_for_status`
raises `HTTPError` for status codes in [400, 600); neither it nor a
request exception is caught anywhere, so both abort with exit status 1.
An empty entry list and a first entry whose stripped title or link is
empty abort via `die(..., code=4)`. -/
def fetch_latest_item (rss_url : String) (resp : FeedResp) : Except PyAbort FeedItem :=
  if resp.getRaises then .error (.exc "requests exception")
  else if 400 ≤ resp.status ∧ resp.status < 600 then
    .error (.exc "requests.exceptions.HTTPError")
  else
    match resp.entries with
    | [] => .error (.exit 4 "RSS has no entries.")
    | e :: _ =>
      let title := pyStripS (pyOrEmpty e.title)
      let link := pyStripS (pyOrEmpty e.link)
      let summary := pyStripS (pyOrChain2 e.summary e.description)
      let published := pyStripS (pyOrChain2 e.published e.updated)
      if title = "" ∨ link = "" then
        .error (.exit 4 "RSS entry is missing title/link.")
      else .ok ⟨title, link, summary, published, rss_url, e⟩

def isErr {ε α : Type} : Except ε α → Bool
  | .error _ => true
  | .ok _ => false

/-!
### The pipeline of `main` (main.py lines 453-474)

External collaborators are an explicit environment: parsed lock content,
parsed config document, the API key variable, both HTTP outcomes, asset
and template files.  The two Jinja templates are external files consumed
only through `get_template`/`render`, so they are modelled at that
boundary: `indexTpl`/`postTpl` are `none` when the template file is
missing (then `get_template` raises `TemplateNotFound`, uncaught), or the
rendered page content.  `main_run` returns the observable effects.
-/

/-- `slugify` from the python-slugify library, modelled for ASCII input:
lower-case, replace each run of non-alphanumeric characters by one `-`,
trim `-` at both ends. -/
def slugify (s : List Char) : List Char :=
  (s.foldr (fun c acc =>
    if isTagChar c then toLowerChar c :: acc
    else
      match acc with
      | '-' :: _ => acc
      | [] => acc
      | _ => '-' :: acc) []).dropWhile (fun c => c = '-')

/-- `safe_filename` (main.py lines 79-80): `slugify(s)[:80] or "post"`. -/
def safe_filename (s : String) : String :=
  let t := (slugify s.data).take 80
  if t = [] then "post" else String.mk t

example : safe_filename "Hello World" = "hello-world" := by decide
example : safe_filename "  ***  " = "post" := by decide

/-- `build_robots` (main.py lines 238-243). -/
def build_robots (base_url : String) : String :=
  "User-agent: *\nAllow: /\n\nSitemap: " ++ base_url ++ "/sitemap.xml\n"

def joinNl : List String → String
  | [] => ""
  | [x] => x
  | x :: xs => x ++ "\n" ++ joinNl xs

/-- `build_sitemap` (main.py lines 246-252). -/
def build_sitemap (urls : List String) : String :=
  let items := joinNl (urls.map (fun u => "<url><loc>" ++ u ++ "</loc></url>"))
  "<?xml version=\"1.0\" encoding=\"UTF-8\"?>\n<urlset xmlns=\"http://www.sitemaps.org/schemas/sitemap/0.9\">\n"
    ++ items ++ "\n</urlset>\n"

/-- `write_lite_lock` content (main.py lines 362-368): the JSON payload
serialized with indent 2 plus a trailing newline. -/
def lite_lock_content (created_utc post_url : String) : String :=
  "\x7b\n  \"created_utc\": \"" ++ created_utc ++ "\",\n  \"post_url\": \"" ++ post_url ++
    "\",\n  \"note\": \"Lite one-shot lock. Delete this file if you are the author and want to rerun locally.\"\n\x7d\n"

inductive FileWrite
  | styleCss (content : String)
  | appJs (content : String)
  | indexHtml (content : String)
  | postPage (relpath : String) (content : String)
  | robotsTxt (content : String)
  | sitemapXml (content : String)
  | liteLock (content : String)
deriving DecidableEq

structure Env where
  lockExists : Bool
  lockData : Option (Option String)
  configDoc : Option ConfigDoc
  apiKey : Option String
  feed : FeedResp
  genRaises : Bool
  genStatus : Nat
  genBody : String
  genJsonOk : Bool
  genContent : Option String
  styleCss : Option String
  appJs : Option String
  templatesDirExists : Bool
  indexTpl : Option String
  postTpl : Option String
  nowIso : String
deriving DecidableEq

/-- The message `check_lite_lock` prints (main.py lines 347-359): the
original timestamp is appended only when the lock JSON parsed and held a
truthy `created_utc`; a corrupt marker still stops the run. -/
def check_lite_lock_msg (lockData : Option (Option String)) : String :=
  let base := "LITE already ran once. This package is one-shot by design."
  match lockData with
  | some (some w) => if w = "" then base else base ++ " (first run: " ++ w ++ ")"
  | _ => base

/-- `deepseek_chat` (main.py lines 162-189) given the HTTP outcome: a
raised request exception and a JSON decode error are uncaught (exit 1); a
non-200 status dies with code 3; a response without the expected content
field dies with code 3; otherwise the stripped content is returned. -/
def deepseek_chat_result (e : Env) : Except PyAbort String :=
  if e.genRaises then .error (.exc "requests exception")
  else if e.genStatus ≠ 200 then
    .error (.exit 3 ("DeepSeek API error: HTTP " ++ toString e.genStatus ++ "\n" ++ e.genBody))
  else if e.genJsonOk = false then .error (.exc "json decode error")
  else
    match e.genContent with
    | none => .error (.exit 3 "DeepSeek API response format unexpected.")
    | some c => .ok (pyStripS c)

/-- `generate_body_html` (main.py lines 374-432): API-key check, one POST,
then sanitize-with-fallback.  Prompt construction (lines 379-407) is pure
string building and does not affect the returned body. -/
def generate_body_html (e : Env) : Except PyAbort String :=
  if pyStripS (pyOrEmpty e.apiKey) = "" then
    .error (.exit 2 "Missing DEEPSEEK_API_KEY (set it as a GitHub Actions secret).")
  else
    match deepseek_chat_result e with
    | .error a => .error a
    | .ok out => .ok (String.mk (sanitize_body out.data))

/-- `copy_assets` (main.py lines 255-266): writes performed, and the abort
when `assets/style.css` is missing. -/
def copy_assets (e : Env) : List FileWrite × Option PyAbort :=
  match e.styleCss with
  | none => ([], some (.exit 5 "assets/style.css missing."))
  | some css =>
    match e.appJs with
    | none => ([.styleCss css], none)
    | some js => ([.styleCss css, .appJs js], none)

/-- `render_site` (main.py lines 269-344): `jinja_env` checks only that
the templates directory exists; `get_template("index.html")` runs before
`index.html` is written and `get_template("post.html")` after, so a
missing post template aborts with `index.html` already on disk.  Returns
the writes performed and, on success, `(post_rel, post_url)`. -/
def render_site (e : Env) (cfg : AppConfig) (item : FeedItem) :
    List FileWrite × Except PyAbort (String × String) :=
  if e.templatesDirExists = false then
    ([], .error (.exit 5 "templates/ folder missing"))
  else
    let slug := safe_filename item.title
    let post_rel := "posts/" ++ slug ++ ".html"
    let post_url := cfg.site.base_url ++ "/" ++ post_rel
    match e.indexTpl with
    | none => ([], .error (.exc "jinja2.exceptions.TemplateNotFound: index.html"))
    | some index_html =>
      match e.postTpl with
      | none =>
        ([.indexHtml index_html],
          .error (.exc "jinja2.exceptions.TemplateNotFound: post.html"))
      | some post_html =>
        let urls := [cfg.site.base_url ++ "/", cfg.site.base_url ++ "/index.html", post_url]
        ([.indexHtml index_html, .postPage post_rel post_html,
          .robotsTxt (build_robots cfg.site.base_url),
          .sitemapXml (build_sitemap urls)],
          .ok (post_rel, post_url))

structure RunResult where
  exitCode : Nat
  httpCalls : Nat
  writes : List FileWrite
  configRead : Bool
  lockMsg : Option String
deriving DecidableEq

/-- The pipeline of `main` (main.py lines 453-474), without the
`--selftest` shortcut (the spec treats the self-check as a separate CLI
surface that replaces the pipeline): lock check, `load_config`,
`fetch_latest_item`, `generate_body_html`, `copy_assets`, `render_site`,
`write_lite_lock`.  `httpCalls` counts HTTP requests attempted (the feed
GET and the generation POST). -/
def main_run (e : Env) : RunResult :=
  if e.lockExists then
    ⟨0, 0, [], false, some (check_lite_lock_msg e.lockData)⟩
  else
    match load_config e.configDoc with
    | .error a => ⟨a.toCode, 0, [], true, none⟩
    | .ok cfg =>
      match fetch_latest_item cfg.rss_url e.feed with
      | .error a => ⟨a.toCode, 1, [], true, none⟩
      | .ok item =>
        match generate_body_html e with
        | .error a =>
          ⟨a.toCode, if pyStripS (pyOrEmpty e.apiKey) = "" then 1 else 2, [], true, none⟩
        | .ok _body =>
          match copy_assets e with
          | (w, some a) => ⟨a.toCode, 2, w, true, none⟩
          | (w1, none) =>
            match render_site e cfg item with
            | (w2, .error a) => ⟨a.toCode, 2, w1 ++ w2, true, none⟩
            | (w2, .ok (_post_rel, post_url)) =>
              ⟨0, 2, w1 ++ w2 ++ [.liteLock (lite_lock_content e.nowIso post_url)],
                true, none⟩

def writesIndex (l : List FileWrite) : Bool :=
  l.any fun w => match w with | .indexHtml _ => true | _ => false

def writesPost (l : List FileWrite) : Bool :=
  l.any fun w => match w with | .postPage _ _ => true | _ => false

def writesRobots (l : List FileWrite) : Bool :=
  l.any fun w => match w with | .robotsTxt _ => true | _ => false

def writesSitemap (l : List FileWrite) : Bool :=
  l.any fun w => match w with | .sitemapXml _ => true | _ => false

def writesLock (l : List FileWrite) : Bool :=
  l.any fun w => match w with | .liteLock _ => true | _ => false

/-- All four site artifacts are among the writes. -/
def allFour (l : List FileWrite) : Bool :=
  writesIndex l && writesPost l && writesRobots l && writesSitemap l

/-- None of the four site artifacts is among the writes. -/
def noneFour (l : List FileWrite) : Bool :=
  !writesIndex l && !writesPost l && !writesRobots l && !writesSitemap l

def sitemapContents (l : List FileWrite) : List String :=
  l.filterMap fun w => match w with | .sitemapXml c => some c | _ => none

/-!
### Claim theorems
-/

lemma containsSub_append_left {t p : List Char} (h : containsSub t p = true)
    (s : List Char) : containsSub (s ++ t) p = true := by
  induction s with
  | nil => exact h
  | cons x xs ih =>
    show (p.isPrefixOf (x :: (xs ++ t)) || containsSub (xs ++ t) p) = true
    rw [ih]
    simp

lemma containsSub_self_append (p rest : List Char) :
    containsSub (p ++ rest) p = true := by
  cases hp : p ++ rest with
  | nil =>
    have : p = [] := by
      cases p with
      | nil => rfl
      | cons a as => simp at hp
    subst this
    rfl
  | cons c cs =>
    show (p.isPrefixOf (c :: cs) || containsSub cs p) = true
    rw [← hp]
    have : p.isPrefixOf (p ++ rest) = true := by
      rw [List.isPrefixOf_iff_prefix]
      exact List.prefix_append p rest
    rw [this]
    simp

lemma mem_joinComma {f : String} :
    ∀ l : List String, f ∈ l → containsSub (joinComma l).data f.data = true := by
  intro l
  induction l with
  | nil => intro h; exact absurd h (by simp)
  | cons x xs ih =>
    intro hmem
    cases xs with
    | nil =>
      have hf : f = x := by simpa using hmem
      subst hf
      show containsSub (joinComma [f]).data f.data = true
      have hj : joinComma [f] = f := rfl
      rw [hj]
      have h0 := containsSub_self_append f.data []
      simpa using h0
    | cons y ys =>
      rcases List.mem_cons.mp hmem with hf | hf
      · subst hf
        show containsSub (f ++ ", " ++ joinComma (y :: ys)).data f.data = true
        rw [String.data_append, String.data_append]
        rw [List.append_assoc]
        exact containsSub_self_append f.data _
      · have hin := ih hf
        show containsSub (x ++ ", " ++ joinComma (y :: ys)).data f.data = true
        rw [String.data_append, String.data_append, List.append_assoc]
        exact containsSub_append_left (containsSub_append_left hin ", ".data) x.data

lemma endsWithSlash_pyRstripSlashS (s : String) :
    endsWithSlash (pyRstripSlashS s) = false := by
  unfold endsWithSlash pyRstripSlashS pyRstripSlash
  simp only [List.reverse_reverse]
  cases hdw : s.data.reverse.dropWhile (fun c => c = '/') with
  | nil => rfl
  | cons x xs =>
    have hx := dropWhile_head_false hdw
    simp only [List.head?_cons]
    have hxne : x ≠ '/' := by simpa using hx
    simp [hxne]

/-- Claim C1 (counterexample): the sanitizer is not splice-proof — for the
input `<di<b>v>`, removing the disallowed `<b>` glues the surrounding text
into a complete `<div>` start tag, so the output contains a tag whose name
is outside the allow-set, refuting the claim for adversarial inputs with
tags spliced inside other tags. -/
theorem C1_spliced_tag_counterexample :
    sanitize "<di<b>v>".data = "<div>".data ∧
      hasDisallowedTag "<div>".data = true := by
  constructor
  · decide
  · decide

/-- Claim C1 (amended): when the intermediate text after the script/style
pass and strip is a well-formed alternation of text without `<` and
complete tag tokens containing no embedded `<` (`chunksOk`), the sanitizer
output contains no tag-pattern match with a name outside the allow-set,
and no script/style open tag or element. -/
theorem C1_sanitize_wellformed_output_clean :
    ∀ s : List Char, chunksOk (pyStrip (remove_script_style s)) = true →
      hasDisallowedTag (sanitize s) = false ∧ hasScriptOpen (sanitize s) = false ∧
        hasScriptElem (sanitize s) = false := by
  intro s h
  exact hasBad_split_forms
    (chunks_master (pyStrip (remove_script_style s)).length _ le_rfl h)

/-- Witness for C1 at the spec's adversarial example: the script element
and its content are removed wholly, the `div` markup is stripped. -/
theorem C1_sanitize_wellformed_witness :
    chunksOk (pyStrip (remove_script_style
        "<script>alert(1)</script><div onclick=x><em>hi</em></div>".data)) = true ∧
      (hasDisallowedTag (sanitize
          "<script>alert(1)</script><div onclick=x><em>hi</em></div>".data) = false ∧
        hasScriptOpen (sanitize
          "<script>alert(1)</script><div onclick=x><em>hi</em></div>".data) = false ∧
        hasScriptElem (sanitize
          "<script>alert(1)</script><div onclick=x><em>hi</em></div>".data) = false) :=
  ⟨by decide, C1_sanitize_wellformed_output_clean _ (by decide)⟩

/-- Claim C2 (counterexample): the sanitizer is not idempotent.  For
`<b> x` one application yields `\x20x` (the removed tag leaves a leading
space that only the second application's `strip()` removes), so applying
it twice differs from applying it once. -/
theorem C2_not_idempotent_counterexample :
    sanitize (sanitize "<b> x".data) ≠ sanitize "<b> x".data := by decide

/-- Claim C2 (amended): the sanitizer is idempotent on every input whose
once-sanitized output contains no `<` and is already stripped of edge
whitespace.  (The counterexamples show both conditions are needed: tag
removal can expose edge whitespace, and removal can splice new tags.) -/
theorem C2_sanitize_idempotent_on_clean :
    ∀ s : List Char, '<' ∉ sanitize s → pyStrip (sanitize s) = sanitize s →
      sanitize (sanitize s) = sanitize s := by
  intro s h1 h2
  show strip_disallowed (pyStrip (remove_script_style (sanitize s))) = sanitize s
  rw [remove_script_style_id h1, h2, strip_disallowed_id h1]

/-- Witness for C2 at a plain text input. -/
theorem C2_sanitize_idempotent_witness :
    '<' ∉ sanitize "hello world".data ∧
      pyStrip (sanitize "hello world".data) = sanitize "hello world".data ∧
      sanitize (sanitize "hello world".data) = sanitize "hello world".data :=
  ⟨by decide, by decide,
    C2_sanitize_idempotent_on_clean "hello world".data (by decide) (by decide)⟩

/-- Claim C3: whenever the lock marker exists at process start — whatever
its content, including unparseable content (`lockData = none`) — the run
exits 0 immediately: no HTTP call, no file write, no configuration read. -/
theorem C3_lock_short_circuit :
    ∀ e : Env, e.lockExists = true →
      (main_run e).exitCode = 0 ∧ (main_run e).httpCalls = 0 ∧
        (main_run e).writes = [] ∧ (main_run e).configRead = false := by
  intro e h
  unfold main_run
  rw [if_pos h]
  exact ⟨rfl, rfl, rfl, rfl⟩

/-- Witness for C3 with a present but corrupt lock marker. -/
theorem C3_lock_short_circuit_witness :
    (⟨true, none, none, none, ⟨false, 200, []⟩, false, 200, "", true, none,
        none, none, true, none, none, "t"⟩ : Env).lockExists = true ∧
      ((main_run ⟨true, none, none, none, ⟨false, 200, []⟩, false, 200, "", true,
          none, none, none, true, none, none, "t"⟩).exitCode = 0 ∧
        (main_run ⟨true, none, none, none, ⟨false, 200, []⟩, false, 200, "", true,
          none, none, none, true, none, none, "t"⟩).httpCalls = 0 ∧
        (main_run ⟨true, none, none, none, ⟨false, 200, []⟩, false, 200, "", true,
          none, none, none, true, none, none, "t"⟩).writes = [] ∧
        (main_run ⟨true, none, none, none, ⟨false, 200, []⟩, false, 200, "", true,
          none, none, none, true, none, none, "t"⟩).configRead = false) :=
  ⟨rfl, C3_lock_short_circuit _ rfl⟩

/-- Claim C7 (counterexample): `strip_tags` does not remove bare angle
brackets — an unmatched `<` (no later `>`) never matches `<[^>]+>`, so the
teaser `a < b` keeps its `<`, refuting "contains no angle brackets". -/
theorem C7_unmatched_bracket_counterexample :
    strip_tags "a < b".data = "a < b".data ∧ '<' ∈ strip_tags "a < b".data := by
  constructor
  · decide
  · decide

/-- Claim C7 (amended): for every input, the teaser produced by
`strip_tags` contains no complete HTML tag — no substring matching
`<[^>]+>` — though bare unmatched angle brackets may remain. -/
theorem C7_strip_tags_no_complete_tag :
    ∀ s : List Char, hasSimpleTag (strip_tags s) = false :=
  strip_tags_noTag

/-- Claim C8: the generated body is never empty — when sanitization yields
the empty string, the fixed fallback paragraph is substituted. -/
theorem C8_body_never_empty :
    ∀ s : List Char, sanitize_body s ≠ [] ∧
      (sanitize s = [] →
        sanitize_body s = "<p><strong>Summary</strong>: Not stated in the source.</p>".data) := by
  intro s
  constructor
  · unfold sanitize_body
    by_cases h : sanitize s = []
    · rw [if_pos h]
      decide
    · rw [if_neg h]
      exact h
  · intro h
    unfold sanitize_body
    rw [if_pos h]

/-- Witness for C8 at an input that sanitizes to the empty string. -/
theorem C8_body_never_empty_witness :
    sanitize "<div></div>".data = [] ∧
      sanitize_body "<div></div>".data =
        "<p><strong>Summary</strong>: Not stated in the source.</p>".data :=
  ⟨by decide, (C8_body_never_empty "<div></div>".data).2 (by decide)⟩

/-- Claim C5 (counterexample): the numeric conversions run before the
missing-field aggregation, so a document missing every required field but
carrying `generation.temperature = "abc"` crashes in `float()` (uncaught
ValueError, exit status 1) — the failure message names no missing field. -/
theorem C5_crash_masks_missing_fields :
    missingFields ⟨none, none, some ⟨none, some (.vstr "abc"), none⟩, none⟩ ≠ [] ∧
      load_config (some ⟨none, none, some ⟨none, some (.vstr "abc"), none⟩, none⟩) =
        .error (.exc "ValueError: could not convert string to float") ∧
      containsSub "ValueError: could not convert string to float".data
        "site.title".data = false := by
  refine ⟨by decide, by decide, by decide⟩

/-- Claim C5 (amended): for every configuration document whose numeric
generation fields convert, one or more missing required fields fail the
load with a single `die(..., code=2)` whose message lists every missing
field (each field name occurs in the message). -/
theorem C5_missing_fields_all_reported :
    ∀ d : ConfigDoc, numericFieldsOk d = true → missingFields d ≠ [] →
      load_config (some d) =
          .error (.exit 2 ("Missing required config fields: " ++
            joinComma (missingFields d))) ∧
        ∀ f ∈ missingFields d,
          containsSub ("Missing required config fields: " ++
            joinComma (missingFields d)).data f.data = true := by
  intro d hnum hmiss
  unfold numericFieldsOk at hnum
  simp only [Bool.and_eq_true] at hnum
  constructor
  · unfold load_config
    simp only []
    rw [hnum.1, hnum.2]
    rw [if_neg (fun hc => Bool.noConfusion hc), if_neg (fun hc => Bool.noConfusion hc)]
    rw [if_pos hmiss]
  · intro f hf
    rw [String.data_append]
    exact containsSub_append_left (mem_joinComma (missingFields d) hf) _

/-- Witness for C5: a document missing the title and the contact email. -/
theorem C5_missing_fields_witness :
    numericFieldsOk ⟨some ⟨none, some "D", some "https://e.x"⟩,
        some "u", none, none⟩ = true ∧
      missingFields ⟨some ⟨none, some "D", some "https://e.x"⟩,
        some "u", none, none⟩ ≠ [] ∧
      (load_config (some ⟨some ⟨none, some "D", some "https://e.x"⟩,
          some "u", none, none⟩) =
        .error (.exit 2 ("Missing required config fields: " ++
          joinComma (missingFields ⟨some ⟨none, some "D", some "https://e.x"⟩,
            some "u", none, none⟩))) ∧
      ∀ f ∈ missingFields ⟨some ⟨none, some "D", some "https://e.x"⟩,
          some "u", none, none⟩,
        containsSub ("Missing required config fields: " ++
          joinComma (missingFields ⟨some ⟨none, some "D", some "https://e.x"⟩,
            some "u", none, none⟩)).data f.data = true) :=
  ⟨by decide, by decide,
    C5_missing_fields_all_reported _ (by decide) (by decide)⟩

/-- Claim C6 (counterexample): an entry with a title but no link does
cause the feed failure — line 212 tests `not title or not link`, so either
missing field aborts with `die(..., code=4)`, refuting "lacks both". -/
theorem C6_title_without_link_errors :
    fetch_latest_item "u"
        ⟨false, 200, [⟨some "T", none, none, none, none, none, none⟩]⟩ =
      .error (.exit 4 "RSS entry is missing title/link.") := by decide

/-- Claim C6 (amended): the feed stage aborts exactly when the HTTP call
raises, the status is in [400, 600) (`raise_for_status`), the parsed feed
has zero entries, or the first entry's stripped title or stripped link is
empty (either one suffices, not both). -/
theorem C6_feed_error_characterization :
    ∀ (u : String) (r : FeedResp),
      isErr (fetch_latest_item u r) =
        (r.getRaises ||
          (decide (400 ≤ r.status) && decide (r.status < 600)) ||
          (match r.entries with
           | [] => true
           | e :: _ =>
             decide (pyStripS (pyOrEmpty e.title) = "") ||
               decide (pyStripS (pyOrEmpty e.link) = ""))) := by
  intro u r
  unfold fetch_latest_item
  by_cases h1 : r.getRaises
  · rw [if_pos h1, h1]
    rfl
  · have hr : r.getRaises = false := Bool.eq_false_iff.mpr h1
    rw [if_neg h1, hr]
    by_cases h2 : 400 ≤ r.status ∧ r.status < 600
    · rw [if_pos h2]
      have ha : decide (400 ≤ r.status) = true := by simp [h2.1]
      have hb : decide (r.status < 600) = true := by simp [h2.2]
      rw [ha, hb]
      rfl
    · rw [if_neg h2]
      have hab : (decide (400 ≤ r.status) && decide (r.status < 600)) = false := by
        rw [Bool.and_eq_false_iff]
        by_cases hx : 400 ≤ r.status
        · right
          simp only [decide_eq_false_iff_not]
          intro hy
          exact h2 ⟨hx, hy⟩
        · left
          simpa using hx
      rw [hab]
      cases hent : r.entries with
      | nil => rfl
      | cons e rest =>
        simp only []
        by_cases h3 : pyStripS (pyOrEmpty e.title) = "" ∨ pyStripS (pyOrEmpty e.link) = ""
        · rw [if_pos h3]
          have : (decide (pyStripS (pyOrEmpty e.title) = "") ||
              decide (pyStripS (pyOrEmpty e.link) = "")) = true := by
            rcases h3 with h3 | h3 <;> simp [h3]
          rw [this]
          rfl
        · rw [if_neg h3]
          push_neg at h3
          have : (decide (pyStripS (pyOrEmpty e.title) = "") ||
              decide (pyStripS (pyOrEmpty e.link) = "")) = false := by
            simp [h3.1, h3.2]
          rw [this]
          rfl

/-- Claim C10 (counterexample): a whitespace-only `generation.model` is
truthy in Python, so the `or "deepseek-chat"` fallback is skipped and the
subsequent `strip()` leaves the empty string — not the default model. -/
theorem C10_whitespace_model_not_default :
    load_config (some ⟨some ⟨some "T", some "D", some "https://e.x"⟩,
        some "https://e.x/feed", some ⟨some " ", none, none⟩, some "a@b.c"⟩) =
      .ok ⟨⟨"T", "D", "https://e.x"⟩, "https://e.x/feed",
        ⟨"", none, none⟩, "a@b.c"⟩ := by decide

/-- Claim C10 (amended): a missing or empty `generation.model` defaults to
`deepseek-chat`; a present model loads as its stripped value (so a
whitespace-only model loads as the empty string, not the default); and the
loaded `base_url` never ends with a slash. -/
theorem C10_model_default_and_base_url :
    ∀ (d : ConfigDoc) (cfg : AppConfig), load_config (some d) = .ok cfg →
      (((d.generation.getD emptyGenDoc).model = none ∨
          (d.generation.getD emptyGenDoc).model = some "") →
        cfg.generation.model = "deepseek-chat") ∧
      (∀ m, (d.generation.getD emptyGenDoc).model = some m →
        cfg.generation.model = pyStripS (if m = "" then "deepseek-chat" else m)) ∧
      endsWithSlash cfg.site.base_url = false := by
  intro d cfg h
  unfold load_config at h
  simp only [] at h
  split at h
  · exact absurd h (by simp)
  · split at h
    · exact absurd h (by simp)
    · split at h
      · exact absurd h (by simp)
      · split at h
        · exact absurd h (by simp)
        · simp only [Except.ok.injEq] at h
          subst h
          refine ⟨?_, ?_, ?_⟩
          · intro hm
            show pyStripS (pyOrDefault (d.generation.getD emptyGenDoc).model
              "deepseek-chat") = "deepseek-chat"
            rcases hm with hm | hm <;> rw [hm] <;> decide
          · intro m hm
            show pyStripS (pyOrDefault (d.generation.getD emptyGenDoc).model
              "deepseek-chat") = pyStripS (if m = "" then "deepseek-chat" else m)
            rw [hm]
            by_cases hme : m = ""
            · rw [if_pos hme, pyOrDefault, if_pos hme]
            · rw [if_neg hme, pyOrDefault, if_neg hme]
          · exact endsWithSlash_pyRstripSlashS _

/-- Witness for C10: a valid document without a `generation` section. -/
theorem C10_model_default_witness :
    load_config (some ⟨some ⟨some "T", some "D", some "https://e.x"⟩,
        some "https://e.x/feed", none, some "a@b.c"⟩) =
      .ok ⟨⟨"T", "D", "https://e.x"⟩, "https://e.x/feed",
        ⟨"deepseek-chat", none, none⟩, "a@b.c"⟩ ∧
      ("deepseek-chat" = "deepseek-chat" ∧
        endsWithSlash (⟨⟨"T", "D", "https://e.x"⟩, "https://e.x/feed",
          ⟨"deepseek-chat", none, none⟩, "a@b.c"⟩ : AppConfig).site.base_url = false) :=
  ⟨by decide,
    (C10_model_default_and_base_url
      ⟨some ⟨some "T", some "D", some "https://e.x"⟩, some "https://e.x/feed",
        none, some "a@b.c"⟩
      ⟨⟨"T", "D", "https://e.x"⟩, "https://e.x/feed",
        ⟨"deepseek-chat", none, none⟩, "a@b.c"⟩
      (by decide)).1 (Or.inl rfl),
    (C10_model_default_and_base_url
      ⟨some ⟨some "T", some "D", some "https://e.x"⟩, some "https://e.x/feed",
        none, some "a@b.c"⟩
      ⟨⟨"T", "D", "https://e.x"⟩, "https://e.x/feed",
        ⟨"deepseek-chat", none, none⟩, "a@b.c"⟩
      (by decide)).2.2⟩

lemma load_config_error_code {d : Option ConfigDoc} {a : PyAbort}
    (h : load_config d = .error a) : a.toCode ≠ 0 := by
  unfold load_config at h
  split at h
  · simp only [Except.error.injEq] at h
    subst h
    decide
  · simp only [] at h
    split at h
    · simp only [Except.error.injEq] at h; subst h; decide
    · split at h
      · simp only [Except.error.injEq] at h; subst h; decide
      · split at h
        · simp only [Except.error.injEq] at h; subst h; simp [PyAbort.toCode]
        · split at h
          · simp only [Except.error.injEq] at h; subst h; decide
          · simp at h

lemma fetch_error_code {u : String} {r : FeedResp} {a : PyAbort}
    (h : fetch_latest_item u r = .error a) : a.toCode ≠ 0 := by
  unfold fetch_latest_item at h
  split at h
  · simp only [Except.error.injEq] at h; subst h; decide
  · split at h
    · simp only [Except.error.injEq] at h; subst h; decide
    · split at h
      · simp only [Except.error.injEq] at h; subst h; decide
      · simp only [] at h
        split at h
        · simp only [Except.error.injEq] at h; subst h; decide
        · simp at h

lemma deepseek_error_code {e : Env} {a : PyAbort}
    (h : deepseek_chat_result e = .error a) : a.toCode ≠ 0 := by
  unfold deepseek_chat_result at h
  split at h
  · simp only [Except.error.injEq] at h; subst h; decide
  · split at h
    · simp only [Except.error.injEq] at h; subst h; simp [PyAbort.toCode]
    · split at h
      · simp only [Except.error.injEq] at h; subst h; decide
      · split at h
        · simp only [Except.error.injEq] at h; subst h; decide
        · simp at h

lemma generate_error_code {e : Env} {a : PyAbort}
    (h : generate_body_html e = .error a) : a.toCode ≠ 0 := by
  unfold generate_body_html at h
  split at h
  · simp only [Except.error.injEq] at h; subst h; decide
  · split at h
    · next heq =>
      simp only [Except.error.injEq] at h
      subst h
      exact deepseek_error_code heq
    · simp at h

lemma copy_assets_error_code {e : Env} {w : List FileWrite} {a : PyAbort}
    (h : copy_assets e = (w, some a)) : a.toCode ≠ 0 := by
  unfold copy_assets at h
  split at h
  · simp only [Prod.mk.injEq, Option.some.injEq] at h
    rw [← h.2]
    decide
  · split at h <;> simp at h

lemma render_error_code {e : Env} {cfg : AppConfig} {item : FeedItem}
    {w : List FileWrite} {a : PyAbort}
    (h : render_site e cfg item = (w, .error a)) : a.toCode ≠ 0 := by
  unfold render_site at h
  split at h
  · simp only [Prod.mk.injEq, Except.error.injEq] at h
    rw [← h.2]
    decide
  · simp only [] at h
    split at h
    · simp only [Prod.mk.injEq, Except.error.injEq] at h
      rw [← h.2]
      decide
    · split at h
      · simp only [Prod.mk.injEq, Except.error.injEq] at h
        rw [← h.2]
        decide
      · simp at h

/-- A run environment with everything in place except the post template. -/
def envNoPostTpl : Env :=
  ⟨false, none,
    some ⟨some ⟨some "Hello World", some "D", some "https://ex.github.io/site"⟩,
      some "https://src.example/feed", none, some "a@b.c"⟩,
    some "k",
    ⟨false, 200, [⟨some "Hello World", some "https://src.example/a",
      some "<p>abc</p>", none, none, none, none⟩]⟩,
    false, 200, "", true,
    some "<p><strong>Summary</strong>: test</p><script>bad()</script>",
    some "css", none, true, some "IDX", none, "2026-01-02T03:04:05+00:00"⟩

/-- A run environment with everything in place. -/
def envAllOk : Env :=
  ⟨false, none,
    some ⟨some ⟨some "Hello World", some "D", some "https://ex.github.io/site"⟩,
      some "https://src.example/feed", none, some "a@b.c"⟩,
    some "k",
    ⟨false, 200, [⟨some "Hello World", some "https://src.example/a",
      some "<p>abc</p>", none, none, none, none⟩]⟩,
    false, 200, "", true,
    some "<p><strong>Summary</strong>: test</p><script>bad()</script>",
    some "css", none, true, some "IDX", some "POST", "2026-01-02T03:04:05+00:00"⟩

/-- Claim C4 (counterexample): with the post template missing (and
everything else in place), the run writes `index.html` but none of the
other three artifacts and no lock, and exits nonzero — a proper subset of
the artifacts is left on disk. -/
theorem C4_partial_write_counterexample :
    writesIndex (main_run envNoPostTpl).writes = true ∧
      writesPost (main_run envNoPostTpl).writes = false ∧
      writesRobots (main_run envNoPostTpl).writes = false ∧
      writesSitemap (main_run envNoPostTpl).writes = false ∧
      writesLock (main_run envNoPostTpl).writes = false ∧
      (main_run envNoPostTpl).exitCode ≠ 0 := by
  refine ⟨by decide, by decide, by decide, by decide, by decide, by decide⟩

lemma c4_case_none {w : List FileWrite} {code : Nat} {hyp : Bool}
    (hn : noneFour w = true) (hl : writesLock w = false) :
    (writesLock w = true → allFour w = true ∧ code = 0) ∧
      (hyp = true →
        (allFour w = true ∧ writesLock w = true) ∨
          (noneFour w = true ∧ writesLock w = false)) := by
  constructor
  · intro hw
    rw [hl] at hw
    exact Bool.noConfusion hw
  · intro _
    exact Or.inr ⟨hn, hl⟩

lemma c4_case_success {w : List FileWrite} {hyp : Bool}
    (ha : allFour w = true) (hl : writesLock w = true) :
    (writesLock w = true → allFour w = true ∧ 0 = 0) ∧
      (hyp = true →
        (allFour w = true ∧ writesLock w = true) ∨
          (noneFour w = true ∧ writesLock w = false)) :=
  ⟨fun _ => ⟨ha, rfl⟩, fun _ => Or.inl ⟨ha, hl⟩⟩

/-- Claim C4 (amended): the lock is created only on runs that wrote all
four artifacts and exit 0; and for every run in which the post template is
present whenever the index template is (in particular every run with both
templates), the outcome is all-or-nothing — either all four artifacts and
the lock, or none of the four and no lock.  The only exception, excluded
by the hypothesis, is a missing post template after a successful index
render, which leaves `index.html` alone on disk. -/
theorem C4_all_or_nothing :
    ∀ e : Env,
      (writesLock (main_run e).writes = true →
        allFour (main_run e).writes = true ∧ (main_run e).exitCode = 0) ∧
      ((e.postTpl.isSome || !e.indexTpl.isSome) = true →
        (allFour (main_run e).writes = true ∧ writesLock (main_run e).writes = true) ∨
          (noneFour (main_run e).writes = true ∧
            writesLock (main_run e).writes = false)) := by
  intro e
  unfold main_run
  split
  · exact c4_case_none rfl rfl
  · split
    · exact c4_case_none rfl rfl
    · split
      · exact c4_case_none rfl rfl
      · split
        · exact c4_case_none rfl rfl
        · split
          · next w a heq =>
            unfold copy_assets at heq
            split at heq
            · simp only [Prod.mk.injEq, Option.some.injEq] at heq
              obtain ⟨rfl, -⟩ := heq
              exact c4_case_none rfl rfl
            · split at heq <;> simp at heq
          · next w1 heq =>
            unfold copy_assets at heq
            split at heq
            · simp at heq
            · next css hcss =>
              split at heq
              all_goals {
                simp only [Prod.mk.injEq] at heq
                obtain ⟨rfl, -⟩ := heq
                split
                · next w2 a heq2 =>
                  unfold render_site at heq2
                  split at heq2
                  · simp only [Prod.mk.injEq] at heq2
                    obtain ⟨rfl, -⟩ := heq2
                    exact c4_case_none rfl rfl
                  · simp only [] at heq2
                    split at heq2
                    · simp only [Prod.mk.injEq] at heq2
                      obtain ⟨rfl, -⟩ := heq2
                      exact c4_case_none rfl rfl
                    · next idx hidx =>
                      split at heq2
                      · next hpost =>
                        simp only [Prod.mk.injEq] at heq2
                        obtain ⟨rfl, -⟩ := heq2
                        constructor
                        · intro hw
                          exact nomatch hw
                        · intro hp
                          rw [hpost, hidx] at hp
                          exact nomatch hp
                      · simp at heq2
                · next w2 pr pu heq2 =>
                  unfold render_site at heq2
                  split at heq2
                  · simp at heq2
                  · simp only [] at heq2
                    split at heq2
                    · simp at heq2
                    · split at heq2
                      · simp at heq2
                      · simp only [Prod.mk.injEq, Except.ok.injEq] at heq2
                        obtain ⟨rfl, -⟩ := heq2
                        exact c4_case_success rfl rfl
              }

/-- Witness for C4 at a fully successful run. -/
theorem C4_all_or_nothing_witness :
    writesLock (main_run envAllOk).writes = true ∧
      (envAllOk.postTpl.isSome || !envAllOk.indexTpl.isSome) = true ∧
      (allFour (main_run envAllOk).writes = true ∧
        (main_run envAllOk).exitCode = 0) ∧
      ((allFour (main_run envAllOk).writes = true ∧
          writesLock (main_run envAllOk).writes = true) ∨
        (noneFour (main_run envAllOk).writes = true ∧
          writesLock (main_run envAllOk).writes = false)) :=
  ⟨by decide, by decide, (C4_all_or_nothing envAllOk).1 (by decide),
    (C4_all_or_nothing envAllOk).2 (by decide)⟩

/-- Claim C9: every successful (non-lock-stopped) run writes exactly one
sitemap, whose content renders exactly the three URLs — site root, home
page, post page — each absolute, built from `base_url`; and
`build_sitemap` of a three-URL list is exactly the XML wrapper with those
three `<url><loc>` entries. -/
theorem C9_sitemap_three_urls :
    ∀ e : Env, e.lockExists = false → (main_run e).exitCode = 0 →
      (∃ cfg item, load_config e.configDoc = .ok cfg ∧
        fetch_latest_item cfg.rss_url e.feed = .ok item ∧
        sitemapContents (main_run e).writes =
          [build_sitemap [cfg.site.base_url ++ "/",
            cfg.site.base_url ++ "/index.html",
            cfg.site.base_url ++ "/" ++
              ("posts/" ++ safe_filename item.title ++ ".html")]]) ∧
      (∀ a b c : String, build_sitemap [a, b, c] =
        "<?xml version=\"1.0\" encoding=\"UTF-8\"?>\n<urlset xmlns=\"http://www.sitemaps.org/schemas/sitemap/0.9\">\n" ++
          ("<url><loc>" ++ a ++ "</loc></url>" ++ "\n" ++
            ("<url><loc>" ++ b ++ "</loc></url>" ++ "\n" ++
              ("<url><loc>" ++ c ++ "</loc></url>"))) ++ "\n</urlset>\n") := by
  intro e hlock hexit
  have hnl : ¬(e.lockExists = true) := by
    rw [hlock]
    exact Bool.noConfusion
  constructor
  · unfold main_run at hexit ⊢
    rw [if_neg hnl] at hexit ⊢
    cases hcfg : load_config e.configDoc with
    | error a =>
      rw [hcfg] at hexit
      exact absurd hexit (load_config_error_code hcfg)
    | ok cfg =>
      rw [hcfg] at hexit
      simp only [] at hexit ⊢
      cases hitem : fetch_latest_item cfg.rss_url e.feed with
      | error a =>
        rw [hitem] at hexit
        exact absurd hexit (fetch_error_code hitem)
      | ok item =>
        rw [hitem] at hexit
        simp only [] at hexit ⊢
        cases hgen : generate_body_html e with
        | error a =>
          rw [hgen] at hexit
          exact absurd hexit (generate_error_code hgen)
        | ok body =>
          rw [hgen] at hexit
          simp only [] at hexit ⊢
          cases hcopy : copy_assets e with
          | mk w1 snd =>
            cases snd with
            | some a =>
              rw [hcopy] at hexit
              exact absurd hexit (copy_assets_error_code hcopy)
            | none =>
              rw [hcopy] at hexit
              simp only [] at hexit ⊢
              cases hrender : render_site e cfg item with
              | mk w2 res =>
                cases res with
                | error a =>
                  rw [hrender] at hexit
                  exact absurd hexit (render_error_code hrender)
                | ok pp =>
                  obtain ⟨pr, pu⟩ := pp
                  simp only [] at hexit ⊢
                  refine ⟨cfg, item, rfl, hitem, ?_⟩
                  unfold render_site at hrender
                  split at hrender
                  · simp at hrender
                  · simp only [] at hrender
                    split at hrender
                    · simp at hrender
                    · split at hrender
                      · simp at hrender
                      · simp only [Prod.mk.injEq, Except.ok.injEq] at hrender
                        obtain ⟨hw2, -⟩ := hrender
                        subst hw2
                        unfold copy_assets at hcopy
                        split at hcopy
                        · simp at hcopy
                        · split at hcopy
                          all_goals {
                            simp only [Prod.mk.injEq] at hcopy
                            obtain ⟨hw1, -⟩ := hcopy
                            subst hw1
                            rfl
                          }
  · intro a b c
    rfl

/-- Witness for C9 at a fully successful run. -/
theorem C9_sitemap_three_urls_witness :
    envAllOk.lockExists = false ∧ (main_run envAllOk).exitCode = 0 ∧
      ((∃ cfg item, load_config envAllOk.configDoc = .ok cfg ∧
        fetch_latest_item cfg.rss_url envAllOk.feed = .ok item ∧
        sitemapContents (main_run envAllOk).writes =
          [build_sitemap [cfg.site.base_url ++ "/",
            cfg.site.base_url ++ "/index.html",
            cfg.site.base_url ++ "/" ++
              ("posts/" ++ safe_filename item.title ++ ".html")]]) ∧
      (∀ a b c : String, build_sitemap [a, b, c] =
        "<?xml version=\"1.0\" encoding=\"UTF-8\"?>\n<urlset xmlns=\"http://www.sitemaps.org/schemas/sitemap/0.9\">\n" ++
          ("<url><loc>" ++ a ++ "</loc></url>" ++ "\n" ++
            ("<url><loc>" ++ b ++ "</loc></url>" ++ "\n" ++
              ("<url><loc>" ++ c ++ "</loc></url>"))) ++ "\n</urlset>\n")) :=
  ⟨rfl, by decide, C9_sitemap_three_urls envAllOk rfl (by decide)⟩

end AutoRSS
